import Mathlib

/-!
Verification development for the cbz-edit repository.

The Rust sources under `src/` are shallowly embedded as executable Lean
definitions:

* `src/comic_info.rs` — the `ComicInfo` metadata record and its enum fields,
  together with a model of its serde/quick-xml encode and decode.
* `src/zip_util.rs` — the archive rewrite operation `modify_zip` and its
  helpers, over an explicit in-memory filesystem and archive model.
* `src/data.rs` — the filename parser `parse_filename`.
* `src/chapter_manager.rs` — the batch operation `save_series_info`,
  linearized (each target is a distinct path, per the documented caller
  invariant, so the unordered concurrent execution is modelled by running
  the targets in submission order).

Machine integers are modelled as `Nat` with explicit bounds where the Rust
code checks them (`u32`/`u16`/`u8` parsing).  Rust `f32` values are modelled
as exact rationals: every numeric literal the program parses is a decimal
fraction, so the model carries the exact value `mantissa / 10 ^ k` instead
of the nearest IEEE float.  `inf`/`nan` literals are treated as unparsable.
Strings are handled at the character level (Rust indices are byte indices;
the difference only matters for multi-byte text, which the embedding does
not attempt to model).
-/

/-! ## Decimal digits: printing and parsing

Models Rust's integer/float `Display` and `FromStr` at the level needed by
the codec: printing produces plain decimal text and parsing reads it back.
-/

/-- Character for a single decimal digit value (`0 ↦ '0'`, …, `9 ↦ '9'`). -/
def digitToChar (d : Nat) : Char := Char.ofNat (48 + d)

/-- Numeric value of a decimal digit character. -/
def charToDigit (c : Char) : Nat := c.toNat - 48

/-- Whether a character is an ASCII decimal digit (Rust `char::is_ascii_digit`). -/
def isDigitChar (c : Char) : Bool := decide (48 ≤ c.toNat) && decide (c.toNat ≤ 57)

/-- Big-endian decimal digit characters of `n`; empty for `n = 0`. -/
def natChars (n : Nat) : List Char := ((Nat.digits 10 n).map digitToChar).reverse

/-- Decimal rendering of a natural number (Rust `u32`/`u16`/`u8` `Display`). -/
def natCharsZ (n : Nat) : List Char := if n = 0 then ['0'] else natChars n

/-- Parse a nonempty all-digit character list as a natural number. -/
def parseNatDigits? (cs : List Char) : Option Nat :=
  if cs ≠ [] ∧ cs.all isDigitChar then
    some (Nat.ofDigits 10 ((cs.map charToDigit).reverse))
  else none

/-- Total numeric value of a digit character list (big-endian). -/
def natOfDigitChars (cs : List Char) : Nat :=
  Nat.ofDigits 10 ((cs.map charToDigit).reverse)

/-- Fraction part of a decimal rendering: the value `r < 10 ^ k` printed as
exactly `k` digit characters (leading zeros included). -/
def fracChars (r k : Nat) : List Char :=
  ((Nat.digits 10 r ++ List.replicate (k - (Nat.digits 10 r).length) 0).map
    digitToChar).reverse

/-! ## Integer parsing with bounds

Models Rust `str::parse::<u32>` / `u16` / `u8`: an optional leading `'+'`,
then one or more ASCII digits, rejecting values at or above the bound
(Rust rejects values above the type's maximum). A leading `'-'` is not
accepted for unsigned types.
-/

/-- Drop one leading `'+'` if present. -/
def stripPlus (cs : List Char) : List Char :=
  match cs with
  | c :: rest => if c = '+' then rest else c :: rest
  | [] => []

/-- Bounded unsigned decimal parse on characters. -/
def parseUintChars? (bound : Nat) (cs : List Char) : Option Nat :=
  match parseNatDigits? (stripPlus cs) with
  | some v => if v < bound then some v else none
  | none => none

/-- Model of Rust `str::parse::<u32>`. -/
def parseU32? (s : String) : Option Nat := parseUintChars? (2 ^ 32) s.data

/-- Model of Rust `str::parse::<u16>`. -/
def parseU16? (s : String) : Option Nat := parseUintChars? (2 ^ 16) s.data

/-- Model of Rust `str::parse::<u8>`. -/
def parseU8? (s : String) : Option Nat := parseUintChars? (2 ^ 8) s.data

/-- Decimal rendering of a natural number as a string (Rust uint `Display`). -/
def natToString (n : Nat) : String := String.mk (natCharsZ n)

/-! ## Float formatting and parsing

Model of Rust `f32` `Display` / `FromStr` over exact rationals.  The
formatter prints the exact decimal value with `q.den` fraction digits
(well-defined whenever the denominator divides a power of ten — true of
every value the program ever parses); real Rust prints the shortest string
that reparses to the same value, so both sides agree on the value carried,
which is all the development relies on.  The parser follows the Rust float
grammar `sign? (digits | digits '.' digits? | '.' digits) (e sign? digits)?`
with `inf`/`nan` treated as unparsable.
-/

/-- Strip one leading sign character, returning the sign as `1` or `-1`. -/
def stripSignF (cs : List Char) : Int × List Char :=
  match cs with
  | c :: rest =>
    if c = '-' then (-1, rest) else if c = '+' then (1, rest) else (1, c :: rest)
  | [] => (1, [])

/-- Parse the mantissa `digits ['.' digits]` into
`(integer part, fraction part, fraction length)`. -/
def parseMantissa? (cs : List Char) : Option (Nat × Nat × Nat) :=
  let ipart := cs.takeWhile isDigitChar
  let rest := cs.dropWhile isDigitChar
  match rest with
  | [] => if ipart = [] then none else some (natOfDigitChars ipart, 0, 0)
  | c :: frac =>
    if c = '.' then
      if frac.all isDigitChar then
        if ipart = [] ∧ frac = [] then none
        else some (natOfDigitChars ipart, natOfDigitChars frac, frac.length)
      else none
    else none

/-- The rational value `sgn * (ip * 10 ^ fl + fp) / 10 ^ fl`. -/
def mkRatDec (sgn : Int) (ip fp fl : Nat) : Rat :=
  ((sgn * (ip * 10 ^ fl + fp) : Int) : Rat) / ((10 : Rat) ^ fl)

/-- Model of Rust `str::parse::<f32>` on characters (exact value, see above). -/
def parseF32chars? (cs : List Char) : Option Rat :=
  let sc := stripSignF cs
  let mant := sc.2.takeWhile (fun c => !(c == 'e' || c == 'E'))
  let erest := sc.2.dropWhile (fun c => !(c == 'e' || c == 'E'))
  match parseMantissa? mant with
  | none => none
  | some (ip, fp, fl) =>
    match erest with
    | [] => some (mkRatDec sc.1 ip fp fl)
    | _ :: ecs =>
      let se := stripSignF ecs
      match parseNatDigits? se.2 with
      | some e => some (mkRatDec sc.1 ip fp fl * (10 : Rat) ^ (se.1 * (e : Int)))
      | none => none

/-- Model of Rust `str::parse::<f32>`. -/
def parseF32? (s : String) : Option Rat := parseF32chars? s.data

/-- Decimal character rendering of a rational (model of Rust `f32` `Display`,
exact whenever the denominator divides a power of ten). -/
def fmtF32chars (q : Rat) : List Char :=
  let k := q.den
  let scale := 10 ^ k / q.den
  let a := (q.num * (scale : Int)).natAbs
  (if q.num < 0 then ['-'] else []) ++
    natCharsZ (a / 10 ^ k) ++ '.' :: fracChars (a % 10 ^ k) k

/-- String rendering of a rational `f32` value. -/
def fmtF32 (q : Rat) : String := String.mk (fmtF32chars q)

/-- Denominators reachable by the program: every numeric literal it parses
is a decimal fraction, so denominators always have the form `2 ^ a * 5 ^ b`. -/
def DecimalDen (q : Rat) : Prop := ∃ a b : Nat, q.den = 2 ^ a * 5 ^ b

/-! ## The ComicInfo metadata record (src/comic_info.rs)

`ComicInfo` and its two enum fields, with the serde/quick-xml codec
modelled one level above raw markup text: a well-formed document is the
list of its child elements `(tag name, text content)` plus an optional
leading comment; any other input is `malformed`.  XML escaping is balanced
between encode and decode and is not modelled.
-/

/-- The `ComicInfoManga` enum (src/comic_info.rs). -/
inductive ComicInfoManga where
  | Unknown
  | Yes
  | No
  | YesAndRightToLeft
deriving DecidableEq, Repr

/-- The custom `Deserialize` for `ComicInfoManga`: total, unrecognized text
maps to `Unknown` (src/comic_info.rs, `impl Deserialize for ComicInfoManga`). -/
def mangaFromString (s : String) : ComicInfoManga :=
  if s = "Yes" then .Yes
  else if s = "No" then .No
  else if s = "YesAndRightToLeft" then .YesAndRightToLeft
  else .Unknown

/-- The `Display` text of `ComicInfoManga` (src/comic_info.rs lines 27–36). -/
def mangaDisplay : ComicInfoManga → String
  | .Yes => "Yes"
  | .No => "No"
  | .YesAndRightToLeft => "YesAndRightToLeft"
  | .Unknown => "Unknown"

/-- The `ComicInfoAgeRating` enum (src/comic_info.rs). -/
inductive ComicInfoAgeRating where
  | Unknown
  | Everyone
  | Teen
  | Mature17Plus
  | AdultsOnly18Plus
deriving DecidableEq, Repr

/-- The custom `Deserialize` for `ComicInfoAgeRating`: total, unrecognized
text maps to `Unknown`; note the literal `"Mature 17+"` / `"Adults Only 18+"`
values (src/comic_info.rs, `impl Deserialize for ComicInfoAgeRating`). -/
def ageRatingFromString (s : String) : ComicInfoAgeRating :=
  if s = "Everyone" then .Everyone
  else if s = "Teen" then .Teen
  else if s = "Mature 17+" then .Mature17Plus
  else if s = "Adults Only 18+" then .AdultsOnly18Plus
  else .Unknown

/-- The `Display` text of `ComicInfoAgeRating` (src/comic_info.rs lines
80–90), with the literal `"Mature 17+"` / `"Adults Only 18+"` spellings.
`Display` is not used by serialization. -/
def ageRatingDisplay : ComicInfoAgeRating → String
  | .Everyone => "Everyone"
  | .Teen => "Teen"
  | .Mature17Plus => "Mature 17+"
  | .AdultsOnly18Plus => "Adults Only 18+"
  | .Unknown => "Unknown"

/-- The text the derived `Serialize` emits for `ComicInfoManga`
(src/comic_info.rs line 7): the variant identifier names — there are no
serde rename attributes on the enum.  For this enum they coincide with the
`Display` text. -/
def mangaSerName : ComicInfoManga → String
  | .Unknown => "Unknown"
  | .Yes => "Yes"
  | .No => "No"
  | .YesAndRightToLeft => "YesAndRightToLeft"

/-- The text the derived `Serialize` emits for `ComicInfoAgeRating`
(src/comic_info.rs line 54): the variant identifier names
(`"Mature17Plus"`, `"AdultsOnly18Plus"`) — there are no serde rename
attributes on the enum, and the `Display` impl with its `"Mature 17+"` /
`"Adults Only 18+"` spellings plays no role in serialization. -/
def ageRatingSerName : ComicInfoAgeRating → String
  | .Unknown => "Unknown"
  | .Everyone => "Everyone"
  | .Teen => "Teen"
  | .Mature17Plus => "Mature17Plus"
  | .AdultsOnly18Plus => "AdultsOnly18Plus"

/-- The `ComicInfo` struct (src/comic_info.rs). `f32` is modelled as `Rat`
and the unsigned integer fields as `Nat` (bounds appear as hypotheses where
they matter). Field defaults mirror Rust `Default`. -/
structure ComicInfo where
  title : String := ""
  series : String := ""
  number : Option Rat := none
  volume : Option Nat := none
  summary : Option String := none
  year : Option Nat := none
  month : Option Nat := none
  day : Option Nat := none
  writer : Option String := none
  penciller : Option String := none
  translator : Option String := none
  publisher : Option String := none
  genre : Option String := none
  tags : Option String := none
  web : Option String := none
  pageCount : Option Nat := none
  languageIso : Option String := none
  manga : ComicInfoManga := .Unknown
  ageRating : ComicInfoAgeRating := .Unknown
deriving DecidableEq, Repr

/-- Model of `ComicInfo::default()`. -/
def ComicInfo.default : ComicInfo := {}

/-- A well-formed metadata markup payload: optional leading comment plus the
child elements of the root, in order, as `(tag, text)` pairs.  `malformed`
stands for any text that does not parse as such a document. -/
inductive XmlDoc where
  | malformed (s : String)
  | doc (comments : List String) (fields : List (String × String))
deriving DecidableEq, Repr

/-- One optional serialized element: present fields produce one element,
absent fields produce nothing (`#[serde(skip_serializing_if = "Option::is_none")]`). -/
def optField (tag : String) (v : Option String) : List (String × String) :=
  match v with
  | some s => [(tag, s)]
  | none => []

/-- Serde serialization of `ComicInfo` (derive `Serialize` with PascalCase
renaming, `LanguageISO` override, skip-if-none on the `Option` fields;
`Title`, `Series`, `Manga` and `AgeRating` are always emitted, the enums as
their variant identifier names). -/
def toDoc (c : ComicInfo) : List (String × String) :=
  [("Title", c.title), ("Series", c.series)]
    ++ optField "Number" (c.number.map fmtF32)
    ++ optField "Volume" (c.volume.map natToString)
    ++ optField "Summary" c.summary
    ++ optField "Year" (c.year.map natToString)
    ++ optField "Month" (c.month.map natToString)
    ++ optField "Day" (c.day.map natToString)
    ++ optField "Writer" c.writer
    ++ optField "Penciller" c.penciller
    ++ optField "Translator" c.translator
    ++ optField "Publisher" c.publisher
    ++ optField "Genre" c.genre
    ++ optField "Tags" c.tags
    ++ optField "Web" c.web
    ++ optField "PageCount" (c.pageCount.map natToString)
    ++ optField "LanguageISO" c.languageIso
    ++ [("Manga", mangaSerName c.manga), ("AgeRating", ageRatingSerName c.ageRating)]

/-- Model of `quick_xml::se::to_string` on a `ComicInfo`: serialization of
this struct (strings are escaped by the library, numbers and the total enum
renderings cannot fail), so the `Result` it returns is always `Ok`; the
`Except` shape mirrors the `?` operator at the call sites. -/
def comicToString (c : ComicInfo) : Except String XmlDoc :=
  .ok (.doc [] (toDoc c))

/-- First element with the given tag, if any (serde matches struct fields
against element names; unknown elements are ignored). -/
def getField? (fields : List (String × String)) (tag : String) : Option String :=
  (fields.find? (fun f => f.1 = tag)).map (fun f => f.2)

/-- A required `String` field (`title`, `series`): serde errors when the
element is missing. -/
def reqStr (fields : List (String × String)) (tag : String) : Except String String :=
  match getField? fields tag with
  | some s => .ok s
  | none => .error ("missing field " ++ tag)

/-- An `Option` numeric field: missing elements deserialize to `none`
(serde treats `Option` fields as implicitly defaulting), while present but
unparsable text is a deserialization error for the whole document. -/
def optNum (parse : String → Option α) (fields : List (String × String))
    (tag : String) : Except String (Option α) :=
  match getField? fields tag with
  | none => .ok none
  | some s =>
    match parse s with
    | some v => .ok (some v)
    | none => .error ("invalid value for " ++ tag)

/-- Model of `quick_xml::de::from_str::<ComicInfo>`: derive `Deserialize`
with the attributes of src/comic_info.rs.  `Title`/`Series` are required
`String` fields; `Option` fields default to `none` when absent but make the
whole parse fail when present and unparsable; `Manga`/`AgeRating` carry
`#[serde(default)]` and a total custom `Deserialize`.  Comments are skipped
by the reader. -/
def comicFromStr (d : XmlDoc) : Except String ComicInfo :=
  match d with
  | .malformed _ => .error "invalid xml"
  | .doc _ fields =>
    match reqStr fields "Title" with
    | .error e => .error e
    | .ok title =>
    match reqStr fields "Series" with
    | .error e => .error e
    | .ok series =>
    match optNum parseF32? fields "Number" with
    | .error e => .error e
    | .ok number =>
    match optNum parseU32? fields "Volume" with
    | .error e => .error e
    | .ok volume =>
    match optNum parseU16? fields "Year" with
    | .error e => .error e
    | .ok year =>
    match optNum parseU16? fields "Month" with
    | .error e => .error e
    | .ok month =>
    match optNum parseU8? fields "Day" with
    | .error e => .error e
    | .ok day =>
    match optNum parseU32? fields "PageCount" with
    | .error e => .error e
    | .ok pageCount =>
    .ok { title := title, series := series, number := number, volume := volume,
          summary := getField? fields "Summary", year := year, month := month,
          day := day, writer := getField? fields "Writer",
          penciller := getField? fields "Penciller",
          translator := getField? fields "Translator",
          publisher := getField? fields "Publisher",
          genre := getField? fields "Genre", tags := getField? fields "Tags",
          web := getField? fields "Web", pageCount := pageCount,
          languageIso := getField? fields "LanguageISO",
          manga := match getField? fields "Manga" with
            | some s => mangaFromString s
            | none => .Unknown,
          ageRating := match getField? fields "AgeRating" with
            | some s => ageRatingFromString s
            | none => .Unknown }

/-- The decode the program actually performs:
`from_str(&content).unwrap_or_default()` (src/zip_util.rs lines 95, 208). -/
def comicFromStrOrDefault (d : XmlDoc) : ComicInfo :=
  match comicFromStr d with
  | .ok c => c
  | .error _ => ComicInfo.default

/-- Numeric bounds and denominators a `ComicInfo` held by the Rust program
always satisfies (`f32` values parse from decimal literals; `u32`/`u16`/`u8`
fields are bounded by their types). -/
def WFComicInfo (c : ComicInfo) : Prop :=
  (∀ q ∈ c.number, DecimalDen q) ∧ (∀ v ∈ c.volume, v < 2 ^ 32) ∧
  (∀ v ∈ c.year, v < 2 ^ 16) ∧ (∀ v ∈ c.month, v < 2 ^ 16) ∧
  (∀ v ∈ c.day, v < 2 ^ 8) ∧ (∀ v ∈ c.pageCount, v < 2 ^ 32)

/-! ## Archive and filesystem model (src/zip_util.rs)

An archive entry carries its name, contents, compression method (as an
opaque numeric code) and optional unix permission bits — the data
`file_options` reads from a source entry and re-applies on write.  Entry
contents are either valid UTF-8 text (carried as its parsed document view,
`XmlDoc.malformed` covering text that is not a well-formed document) or
bytes that are not valid UTF-8.  A file on disk is either a well-formed
zip serializing an entry list or bytes with no valid zip structure; the
filesystem is an association list from paths to file contents, `none`
modelling an unreadable/missing file.  Corruption inside an individual
entry's compressed stream is subsumed by `notZip` (the model does not
distinguish which layer of the container is corrupt).
-/

/-- Contents of one archive entry. -/
inductive Bytes where
  | utf8 (d : XmlDoc)
  | binary (raw : List Nat)
deriving DecidableEq, Repr

/-- One zip entry with the attributes `file_options` preserves. -/
structure ZEntry where
  name : String
  data : Bytes
  compression : Nat
  unixMode : Option Nat
deriving DecidableEq, Repr

/-- A file's on-disk contents: a well-formed zip or not a zip at all. -/
inductive FileData where
  | zip (entries : List ZEntry)
  | notZip (raw : List Nat)
deriving DecidableEq, Repr

/-- The filesystem: association list from paths to contents. -/
def Fs : Type := List (String × FileData)

instance : DecidableEq Fs := inferInstanceAs (DecidableEq (List (String × FileData)))

/-- Model of `fs::read`: `none` is an unreadable or missing file. -/
def fsRead (fs : Fs) (path : String) : Option FileData :=
  ((fs : List (String × FileData)).find? (fun pr => pr.1 = path)).map (fun pr => pr.2)

/-- Model of `fs::write`: replace the file at `path` (create it if absent). -/
def fsWrite (fs : Fs) (path : String) (d : FileData) : Fs :=
  match fs with
  | [] => [(path, d)]
  | (p, v) :: rest =>
    if p = path then (path, d) :: rest else (p, v) :: fsWrite rest path d

/-- Model of `ZipArchive::new`: fails on a corrupt container. -/
def zipArchiveNew (fd : FileData) : Except String (List ZEntry) :=
  match fd with
  | .zip entries => .ok entries
  | .notZip _ => .error "invalid Zip archive"

/-- Model of `Read::read_to_string` on an entry: fails when the bytes are
not valid UTF-8 (`src.read_to_string(&mut content)?`). -/
def readDoc (b : Bytes) : Except String XmlDoc :=
  match b with
  | .utf8 d => .ok d
  | .binary _ => .error "stream did not contain valid UTF-8"

/-- The provenance comment added to `ComicInfo.xml` (src/zip_util.rs line 18). -/
def commentText : String := " Modified by cbz-edit "

/-- Model of `add_xml_comment`: re-parse the markup and emit it with the
comment prepended; fails if the input is not well-formed (the reader's
`read_event_into` errors). -/
def addXmlComment (d : XmlDoc) (comment : String) : Except String XmlDoc :=
  match d with
  | .malformed _ => .error "invalid xml"
  | .doc cs fields => .ok (.doc (comment :: cs) fields)

/-- Type of `ComicInfoUpdater` (src/zip_util.rs line 21): old record and
candidate record to merged record. -/
def ComicInfoUpdater : Type := ComicInfo → ComicInfo → ComicInfo

/-- Model of `copy_file`: read the entry's bytes and write them to the new
archive under the same name with the options `file_options` extracted
(compression method and unix permissions of the source entry). -/
def copyFile (e : ZEntry) : ZEntry :=
  { name := e.name, data := e.data, compression := e.compression,
    unixMode := e.unixMode }

/-- Model of `write_comic_info`: read the existing entry as text, decode it
(total decode with default fallback), merge via the updater, encode, prepend
the provenance comment, and emit the entry under the original entry's
options. -/
def writeComicInfo (e : ZEntry) (newInfo : ComicInfo) (updater : ComicInfoUpdater) :
    Except String ZEntry :=
  match readDoc e.data with
  | .error er => .error er
  | .ok d =>
    let old := comicFromStrOrDefault d
    let updated := updater old newInfo
    match comicToString updated with
    | .error er => .error er
    | .ok xml =>
      match addXmlComment xml commentText with
      | .error er => .error er
      | .ok modified =>
        .ok { name := "ComicInfo.xml", data := .utf8 modified,
              compression := e.compression, unixMode := e.unixMode }

/-- Compression code of `SimpleFileOptions::default()` (Deflated). -/
def defaultCompression : Nat := 8

/-- Model of `add_new_comic_info`: synthesize the metadata entry from the
default record under default file options. -/
def addNewComicInfo (newInfo : ComicInfo) (updater : ComicInfoUpdater) :
    Except String ZEntry :=
  let old := ComicInfo.default
  let updated := updater old newInfo
  match comicToString updated with
  | .error er => .error er
  | .ok xml =>
    match addXmlComment xml commentText with
    | .error er => .error er
    | .ok modified =>
      .ok { name := "ComicInfo.xml", data := .utf8 modified,
            compression := defaultCompression, unixMode := none }

/-- The entry loop of `modify_zip` (lines 42–54): stream every source entry
into the new archive, replacing each entry named `ComicInfo.xml` and
recording whether one was seen. -/
def buildEntries (entries : List ZEntry) (newInfo : ComicInfo)
    (updater : ComicInfoUpdater) : Except String (List ZEntry × Bool) :=
  match entries with
  | [] => .ok ([], false)
  | e :: rest =>
    if e.name = "ComicInfo.xml" then
      match writeComicInfo e newInfo updater with
      | .error er => .error er
      | .ok ne =>
        match buildEntries rest newInfo updater with
        | .error er => .error er
        | .ok (out, _) => .ok (ne :: out, true)
    else
      match buildEntries rest newInfo updater with
      | .error er => .error er
      | .ok (out, found) => .ok (copyFile e :: out, found)

/-- Model of `modify_zip` (src/zip_util.rs lines 27–65): read the archive,
build the whole replacement archive in memory, and only then overwrite the
file; any failure returns the error without touching the filesystem. -/
def modifyZip (fs : Fs) (inputPath : String) (newComicInfo : ComicInfo)
    (updater : ComicInfoUpdater) : Fs × Except String Unit :=
  match fsRead fs inputPath with
  | none => (fs, .error "failed to read input")
  | some fd =>
    match zipArchiveNew fd with
    | .error er => (fs, .error er)
    | .ok entries =>
      match buildEntries entries newComicInfo updater with
      | .error er => (fs, .error er)
      | .ok (out, found) =>
        if found then (fsWrite fs inputPath (.zip out), .ok ())
        else
          match addNewComicInfo newComicInfo updater with
          | .error er => (fs, .error er)
          | .ok ne => (fsWrite fs inputPath (.zip (out ++ [ne])), .ok ())

/-- Model of `replace_all_updater` (src/zip_util.rs lines 163–165). -/
def replaceAllUpdater (_old : ComicInfo) (new : ComicInfo) : ComicInfo := new

/-- Modelled from the spec: `ComicInfo::update_shared_fields` is called by
`update_shared_updater` (src/zip_util.rs line 169) but its definition is not
among the provided sources.  Per spec §4.4 (MergeShared): result = existing,
except series, summary, writer, penciller, publisher, genre, tags, web,
language, manga flag and age rating are taken from the candidate.  (The spec
also lists a "total count" field, which the `ComicInfo` struct in src does
not have.) -/
def updateSharedFields (old new : ComicInfo) : ComicInfo :=
  { old with
    series := new.series
    summary := new.summary
    writer := new.writer
    penciller := new.penciller
    publisher := new.publisher
    genre := new.genre
    tags := new.tags
    web := new.web
    languageIso := new.languageIso
    manga := new.manga
    ageRating := new.ageRating }

/-- Model of `update_shared_updater` (src/zip_util.rs lines 168–171). -/
def updateSharedUpdater (old : ComicInfo) (new : ComicInfo) : ComicInfo :=
  updateSharedFields old new

/-- Model of `derive_updater` (src/zip_util.rs lines 174–180): volume, number,
translator and title from the candidate, everything else kept. -/
def deriveUpdater (old : ComicInfo) (new : ComicInfo) : ComicInfo :=
  { old with
    volume := new.volume
    number := new.number
    translator := new.translator
    title := new.title }

/-- Model of `modify_comic_info` (src/zip_util.rs lines 184–186). -/
def modifyComicInfo (fs : Fs) (path : String) (newComicInfo : ComicInfo) :
    Fs × Except String Unit :=
  modifyZip fs path newComicInfo updateSharedUpdater

/-- Model of `replace_comic_info` (src/zip_util.rs lines 189–191). -/
def replaceComicInfo (fs : Fs) (path : String) (newComicInfo : ComicInfo) :
    Fs × Except String Unit :=
  modifyZip fs path newComicInfo replaceAllUpdater

/-- Model of `derive_comic_info` (src/zip_util.rs lines 194–196). -/
def deriveComicInfo (fs : Fs) (path : String) (newComicInfo : ComicInfo) :
    Fs × Except String Unit :=
  modifyZip fs path newComicInfo deriveUpdater

/-- Model of `get_comic_from_zip` (src/zip_util.rs lines 199–212): any `by_name`
failure falls back to the default record, but a UTF-8 read failure of a
present entry propagates as an error. -/
def getComicFromZip (fs : Fs) (path : String) : Except String ComicInfo :=
  match fsRead fs path with
  | none => .error "failed to read input"
  | some fd =>
    match zipArchiveNew fd with
    | .error er => .error er
    | .ok entries =>
      match entries.find? (fun e => e.name = "ComicInfo.xml") with
      | some e =>
        match readDoc e.data with
        | .error er => .error er
        | .ok d => .ok (comicFromStrOrDefault d)
      | none => .ok ComicInfo.default

/-! ## The filename parser (src/data.rs)

`parse_filename` and its helpers, ported at the character level.  Rust's
byte indices become character indices, `char::is_alphabetic` /
`to_lowercase` / `str::trim` are modelled on their ASCII behavior, and
`i32` bracket depth is an unbounded `Int` (Rust's `saturating_sub` only
saturates at `i32::MIN`, which such depths never approach).
-/

/-- The `Chapter` struct (src/ui/list.rs lines 152–168): the descriptor
`parse_filename` produces. -/
structure Chapter where
  path : String
  volume : Option Nat := none
  chapter : Option Rat := none
  title : Option String := none
  translators : List String := []
deriving DecidableEq, Repr

/-- Fuel-driven worker for `trimEndCbz` (structural recursion on the fuel;
each strip removes four characters, so `l.length` fuel always suffices). -/
def trimEndCbzGo : Nat → List Char → List Char
  | 0, l => l
  | fuel + 1, l =>
    if 4 ≤ l.length ∧ l.drop (l.length - 4) = ['.', 'c', 'b', 'z'] then
      trimEndCbzGo fuel (l.take (l.length - 4))
    else l

/-- Model of `str::trim_end_matches(".cbz")`: repeatedly strip the literal
suffix. -/
def trimEndCbz (l : List Char) : List Char := trimEndCbzGo l.length l

/-- Model of `str::rfind(char)`: index of the last occurrence. -/
def rfindIdx? (c : Char) (l : List Char) : Option Nat :=
  match l.reverse.findIdx? (fun x => x == c) with
  | some r => some (l.length - 1 - r)
  | none => none

/-- ASCII model of the whitespace `str::trim` removes. -/
def isWhitespaceChar (c : Char) : Bool :=
  decide (c = ' ') || decide (c = '\t') || decide (c = '\n') || decide (c = '\r')

/-- Model of `str::trim`. -/
def trimChars (l : List Char) : List Char :=
  ((l.dropWhile isWhitespaceChar).reverse.dropWhile isWhitespaceChar).reverse

/-- The trailing bracket-group extraction of `parse_filename` (src/data.rs
lines 127–137): when the last `[` sits before the last `]`, the text between
them splits on commas into trimmed, nonempty translator names and the group
is removed (with trailing trim) from the working string. -/
def extractBracketGroup (core : List Char) : List Char × List String :=
  match rfindIdx? '[' core, rfindIdx? ']' core with
  | some s, some e =>
    if s < e then
      let inside := (core.drop (s + 1)).take (e - s - 1)
      let pieces := (inside.splitOn ',').map trimChars
      ((trimChars (core.take s)),
        (pieces.filter (fun w => w ≠ [])).map (fun w => String.mk w))
    else (core, [])
  | _, _ => (core, [])

/-- The language-tag removal of `parse_filename` (src/data.rs lines
140–147): a trailing parenthesized group of 2–3 characters is dropped. -/
def stripLangTag (core : List Char) : List Char :=
  match rfindIdx? '(' core, rfindIdx? ')' core with
  | some s, some e =>
    if s < e then
      let inside := (core.drop (s + 1)).take (e - s - 1)
      if 2 ≤ inside.length ∧ inside.length ≤ 3 then trimChars (core.take s)
      else core
    else core
  | _, _ => core

/-- Worker for `tokenize_preserving_brackets` (src/data.rs lines 85–118):
split on whitespace, `-` and `:` only at bracket depth zero. -/
def tokenizeGo : List Char → List Char → Int → List (List Char)
  | [], buf, _ => if buf = [] then [] else [buf]
  | c :: rest, buf, depth =>
    if c = '[' then tokenizeGo rest (buf ++ [c]) (depth + 1)
    else if c = ']' then tokenizeGo rest (buf ++ [c]) (depth - 1)
    else if (c = '-' ∨ c = ':' ∨ c = ' ' ∨ c = '\t' ∨ c = '\n') ∧ depth = 0 then
      if buf = [] then tokenizeGo rest [] depth
      else buf :: tokenizeGo rest [] depth
    else tokenizeGo rest (buf ++ [c]) depth

/-- Model of `tokenize_preserving_brackets` (src/data.rs lines 85–118). -/
def tokenizePreservingBrackets (l : List Char) : List (List Char) :=
  tokenizeGo l [] 0

/-- ASCII model of `str::to_lowercase`. -/
def lowerToken (l : List Char) : List Char := l.map Char.toLower

/-- The chapter prefixes of `is_chapter_prefix` (src/data.rs lines 58–60). -/
def chapterPrefixes : List (List Char) :=
  ["ch", "ch.", "chap", "chap.", "chapter", "chapter.", "ep", "ep.",
   "episode", "episode."].map String.data

/-- Model of `is_chapter_prefix` (src/data.rs lines 54–83): an exact prefix
word, a prefix word followed immediately by an ASCII digit, or `#` followed
by only ASCII digits. -/
def isChapterTok (tok : List Char) : Bool :=
  let low := lowerToken tok
  (chapterPrefixes.any (fun p =>
    low == p ||
      (p.isPrefixOf low &&
        match low.drop p.length with
        | d :: _ => isDigitChar d
        | [] => false)))
  || (match low with
      | '#' :: t => t.all isDigitChar
      | _ => false)

/-- The mutable scan state of the token loop in `parse_filename`
(src/data.rs lines 152–154). -/
structure ScanState where
  volume : Option Nat := none
  chapter : Option Rat := none
  leftovers : List (List Char) := []
deriving DecidableEq, Repr

/-- The volume-branch guard of the token loop (src/data.rs lines 162–165):
the lowercase token starts with `vol`/`volume` and the original token
contains no square bracket. -/
def isVolToken (tok : List Char) : Bool :=
  (List.isPrefixOf "vol".data (lowerToken tok)
    || List.isPrefixOf "volume".data (lowerToken tok))
  && !(tok.contains '[') && !(tok.contains ']')

/-- One iteration of the token loop of `parse_filename` (src/data.rs lines
156–210), given the current token, the remaining tokens and the state:
returns how many extra tokens were consumed (the Rust `i += 1`) and the
updated state.  Volume detection prefers digits embedded in the token and
falls back to the next token; chapter detection (only while no chapter is
set) strips prefix letters/`.`/`#` and may consume the next token; a bare
float sets the chapter but stays in the title leftovers; anything else goes
to the leftovers. -/
def scanStep (tok : List Char) (rest : List (List Char)) (st : ScanState) :
    Nat × ScanState :=
  if isVolToken tok then
    match parseUintChars? (2 ^ 32) (tok.filter isDigitChar) with
    | some v => (0, { st with volume := some v })
    | none =>
      match rest with
      | next :: _ =>
        match parseUintChars? (2 ^ 32) next with
        | some v => (1, { st with volume := some v })
        | none => (0, st)
      | [] => (0, st)
  else if st.chapter = none ∧ isChapterTok tok then
    match tok.dropWhile (fun c => c.isAlpha || c = '.' || c = '#') with
    | [] =>
      match rest with
      | next :: _ =>
        match parseF32chars? next with
        | some n => (1, { st with chapter := some n })
        | none => (0, { st with leftovers := st.leftovers ++ [tok] })
      | [] => (0, { st with leftovers := st.leftovers ++ [tok] })
    | num =>
      match parseF32chars? num with
      | some n => (0, { st with chapter := some n })
      | none => (0, { st with leftovers := st.leftovers ++ [tok] })
  else
    match parseF32chars? tok with
    | some n =>
      if st.chapter = none then
        (0, { st with chapter := some n, leftovers := st.leftovers ++ [tok] })
      else (0, { st with leftovers := st.leftovers ++ [tok] })
    | none => (0, { st with leftovers := st.leftovers ++ [tok] })

/-- Fuel-driven worker for `scanTokens` (structural recursion on the fuel;
each step consumes at least one token, so `ts.length` fuel always
suffices). -/
def scanTokensGo : Nat → List (List Char) → ScanState → ScanState
  | _, [], st => st
  | 0, _ :: _, st => st
  | fuel + 1, tok :: rest, st =>
    let s := scanStep tok rest st
    scanTokensGo fuel (rest.drop s.1) s.2

/-- The token loop of `parse_filename` (src/data.rs lines 156–210): run
`scanStep` over the tokens, skipping any extra token a step consumed. -/
def scanTokens (ts : List (List Char)) (st : ScanState) : ScanState :=
  scanTokensGo ts.length ts st

/-- Model of `parse_filename` (src/data.rs lines 120–225). -/
def parseFilename (path : String) (filename : String) : Chapter :=
  let name := trimEndCbz filename.data
  let ct := extractBracketGroup name
  let core := stripLangTag ct.1
  let tokens := tokenizePreservingBrackets core
  let st := scanTokens tokens {}
  { path := path
    volume := st.volume
    chapter := st.chapter
    title := if st.leftovers = [] then none
             else some (String.mk (List.intercalate [' '] st.leftovers))
    translators := ct.2 }

/-! ## The batch operation (src/chapter_manager.rs)

`save_series_info` submits one rewrite per chapter over a
`buffer_unordered` stream bounded by the host parallelism, collects every
outcome, propagates the first error with `?`, and only then sends the
summary status message.  Each target is a distinct path (caller invariant,
spec §5), so the model linearizes the batch in submission order.  Status
messages are modelled structurally; the elapsed wall time interpolated into
the real summary text is not modelled. -/

/-- A status message sent over the watch channel. `processing i len title`
stands for `"Processing {i}/{len}: {title}"` (line 32) and `summary count`
for `"All done~ processed {count} chapters in {duration} 🎉"` (line 113). -/
inductive StatusMsg where
  | processing (i len : Nat) (title : String)
  | summary (count : Nat)
deriving DecidableEq, Repr

/-- Model of `get_title` (src/chapter_manager.rs lines 12–18): the chapter title, or
the display form of its path. -/
def getTitle (c : Chapter) : String := c.title.getD c.path

/-- Model of `process_chapter_info` (src/chapter_manager.rs lines 20–36): send the
status message, then run the blocking rewrite. -/
def processChapterInfo (fs : Fs) (c : Chapter) (info : ComicInfo) (i len : Nat)
    (processFn : Fs → String → ComicInfo → Fs × Except String Unit) :
    Fs × List StatusMsg × Except String Unit :=
  let r := processFn fs c.path info
  (r.1, [.processing (i + 1) len (getTitle c)], r.2)

/-- The mapped-and-collected stream of `save_series_info` (lines 98–107):
every submitted target runs to completion; the filesystem effects, the
status messages and the per-target results are all collected. -/
def runBatch (fs : Fs) (chapters : List Chapter) (info : ComicInfo)
    (len i : Nat) : Fs × List StatusMsg × List (Except String Unit) :=
  match chapters with
  | [] => (fs, [], [])
  | c :: rest =>
    let one := processChapterInfo fs c info i len modifyComicInfo
    let restRun := runBatch one.1 rest info len (i + 1)
    (restRun.1, one.2.1 ++ restRun.2.1, one.2.2 :: restRun.2.2)

/-- Model of `collect::<Result<Vec<_>, _>>()` over the outcome list: the first error
in completion order, if any. -/
def firstError (rs : List (Except String Unit)) : Option String :=
  rs.findSome? (fun r => match r with | .error e => some e | .ok _ => none)

/-- Model of `save_series_info` (src/chapter_manager.rs lines 88–117): run every
target, propagate the first error with `?`, and send the summary message
only after the `?` (that is, only when every target succeeded). -/
def saveSeriesInfo (fs : Fs) (chapters : List Chapter) (comicInfo : ComicInfo) :
    Fs × List StatusMsg × Except String Unit :=
  let len := chapters.length
  let run := runBatch fs chapters comicInfo len 0
  match firstError run.2.2 with
  | some e => (run.1, run.2.1, .error e)
  | none => (run.1, run.2.1 ++ [.summary len], .ok ())

/-- Reference semantics: the filesystem after applying every target's
rewrite in submission order, whether or not some of them fail. -/
def applyAll (fs : Fs) (chapters : List Chapter) (info : ComicInfo) : Fs :=
  match chapters with
  | [] => fs
  | c :: rest => applyAll (modifyComicInfo fs c.path info).1 rest info

/-- Reference semantics: the per-target outcomes, in submission order. -/
def resultsAll (fs : Fs) (chapters : List Chapter) (info : ComicInfo) :
    List (Except String Unit) :=
  match chapters with
  | [] => []
  | c :: rest =>
    (modifyComicInfo fs c.path info).2
      :: resultsAll (modifyComicInfo fs c.path info).1 rest info

/-- What the rewrite preserves of each source entry: its name, compression
method and permission bits always, and the entry itself (contents included)
whenever it is not the designated metadata entry. -/
def PreservesEntry (a b : ZEntry) : Prop :=
  b.name = a.name ∧ b.compression = a.compression ∧ b.unixMode = a.unixMode ∧
  (a.name ≠ "ComicInfo.xml" → b = a)

/-- A sample page entry for concrete witnesses. -/
def samplePageEntry : ZEntry :=
  { name := "page1.png", data := .binary [1, 2, 3], compression := 8,
    unixMode := some 420 }

/-- A sample metadata entry for concrete witnesses. -/
def sampleComicEntry : ZEntry :=
  { name := "ComicInfo.xml", data := .utf8 (.doc [] [("Title", "Old"), ("Series", "S")]),
    compression := 0, unixMode := none }

/-- A sample filesystem holding one well-formed archive. -/
def sampleFs : Fs := [("a.cbz", .zip [samplePageEntry, sampleComicEntry])]

/-- A sample metadata entry whose bytes are not valid UTF-8. -/
def sampleBinaryComicEntry : ZEntry :=
  { name := "ComicInfo.xml", data := .binary [255], compression := 0, unixMode := none }

/-- A sample filesystem whose archive has a non-UTF-8 metadata entry. -/
def sampleBadFs : Fs := [("bad.cbz", .zip [sampleBinaryComicEntry])]

/-- A fully populated record for the round-trip witness, exercising the
irregular `"Mature 17+"` age-rating text and a fractional chapter number. -/
def sampleFullInfo : ComicInfo :=
  { title := "T", series := "S", number := some (21 / 2 : Rat), volume := some 3,
    summary := some "sum", year := some 2021, month := some 12, day := some 31,
    writer := some "w", penciller := some "p", translator := some "tr",
    publisher := some "pub", genre := some "g", tags := some "tg",
    web := some "http://x", pageCount := some 20, languageIso := some "en",
    manga := .YesAndRightToLeft, ageRating := .Mature17Plus }

/-! ## Theorems -/

theorem charToDigit_digitToChar {d : Nat} (h : d < 10) :
    charToDigit (digitToChar d) = d := by
  interval_cases d <;> decide

theorem isDigitChar_digitToChar {d : Nat} (h : d < 10) :
    isDigitChar (digitToChar d) = true := by
  interval_cases d <;> decide

theorem natChars_all_digits (n : Nat) : (natChars n).all isDigitChar = true := by
  simp only [natChars, List.all_eq_true, List.mem_reverse, List.mem_map]
  rintro c ⟨d, hd, rfl⟩
  exact isDigitChar_digitToChar (Nat.digits_lt_base (by norm_num) hd)

theorem parseNatDigits?_natChars {n : Nat} (h : n ≠ 0) :
    parseNatDigits? (natChars n) = some n := by
  have hne : natChars n ≠ [] := by
    simp only [natChars, ne_eq, List.reverse_eq_nil_iff, List.map_eq_nil_iff]
    exact Nat.digits_ne_nil_iff_ne_zero.mpr h
  have hmap : ((natChars n).map charToDigit).reverse = Nat.digits 10 n := by
    simp only [natChars, List.map_reverse, List.reverse_reverse, List.map_map]
    calc List.map (charToDigit ∘ digitToChar) (Nat.digits 10 n)
        = List.map id (Nat.digits 10 n) :=
          List.map_congr_left (fun d hd =>
            charToDigit_digitToChar (Nat.digits_lt_base (by norm_num) hd))
      _ = Nat.digits 10 n := List.map_id _
  rw [parseNatDigits?, if_pos ⟨hne, natChars_all_digits n⟩, hmap, Nat.ofDigits_digits]

theorem parseNatDigits?_natCharsZ (n : Nat) :
    parseNatDigits? (natCharsZ n) = some n := by
  by_cases h : n = 0
  · subst h; decide
  · simp only [natCharsZ, if_neg h]; exact parseNatDigits?_natChars h

theorem parseNatDigits?_eq_natOfDigitChars {cs : List Char}
    (hne : cs ≠ []) (hall : cs.all isDigitChar = true) :
    parseNatDigits? cs = some (natOfDigitChars cs) := by
  rw [parseNatDigits?, if_pos ⟨hne, hall⟩, natOfDigitChars]

theorem natOfDigitChars_printed {ds : List Nat} (h : ∀ d ∈ ds, d < 10) :
    natOfDigitChars ((ds.map digitToChar).reverse) = Nat.ofDigits 10 ds := by
  unfold natOfDigitChars
  congr 1
  simp only [List.map_reverse, List.reverse_reverse, List.map_map]
  calc List.map (charToDigit ∘ digitToChar) ds
      = List.map id ds := List.map_congr_left (fun d hd => charToDigit_digitToChar (h d hd))
    _ = ds := List.map_id _

theorem natOfDigitChars_natCharsZ (n : Nat) : natOfDigitChars (natCharsZ n) = n := by
  by_cases h : n = 0
  · subst h; decide
  · rw [natCharsZ, if_neg h, natChars,
      natOfDigitChars_printed (fun d hd => Nat.digits_lt_base (by norm_num) hd),
      Nat.ofDigits_digits]

theorem ofDigits_replicate_zero (b k : Nat) :
    Nat.ofDigits b (List.replicate k 0) = 0 := by
  induction k with
  | zero => simp [Nat.ofDigits]
  | succ k ih => simp [List.replicate_succ, Nat.ofDigits, ih]

theorem natOfDigitChars_fracChars (r k : Nat) :
    natOfDigitChars (fracChars r k) = r := by
  rw [fracChars, natOfDigitChars_printed]
  · rw [Nat.ofDigits_append, ofDigits_replicate_zero, Nat.ofDigits_digits]
    ring
  · intro d hd
    rcases List.mem_append.mp hd with h | h
    · exact Nat.digits_lt_base (by norm_num) h
    · rw [List.eq_of_mem_replicate h]; norm_num

theorem fracChars_all_digits (r k : Nat) : (fracChars r k).all isDigitChar = true := by
  simp only [fracChars, List.all_eq_true, List.mem_reverse, List.mem_map]
  rintro c ⟨d, hd, rfl⟩
  refine isDigitChar_digitToChar ?_
  rcases List.mem_append.mp hd with h | h
  · exact Nat.digits_lt_base (by norm_num) h
  · rw [List.eq_of_mem_replicate h]; norm_num

theorem fracChars_length {r k : Nat} (hr : r < 10 ^ k) : (fracChars r k).length = k := by
  have hlen : (Nat.digits 10 r).length ≤ k := by
    by_cases h0 : r = 0
    · subst h0; simp
    · rw [Nat.digits_len 10 r (by norm_num) h0]
      have := Nat.log_lt_of_lt_pow h0 hr
      omega
  simp only [fracChars, List.length_reverse, List.length_map, List.length_append,
    List.length_replicate]
  omega

theorem takeWhile_all {p : Char → Bool} {l : List Char} (h : ∀ c ∈ l, p c = true) :
    l.takeWhile p = l := by
  induction l with
  | nil => rfl
  | cons c rest ih =>
    rw [List.takeWhile_cons, if_pos (h c (List.mem_cons_self c rest))]
    rw [ih (fun x hx => h x (List.mem_cons_of_mem c hx))]

theorem dropWhile_all {p : Char → Bool} {l : List Char} (h : ∀ c ∈ l, p c = true) :
    l.dropWhile p = [] := by
  induction l with
  | nil => rfl
  | cons c rest ih =>
    rw [List.dropWhile_cons, if_pos (h c (List.mem_cons_self c rest))]
    exact ih (fun x hx => h x (List.mem_cons_of_mem c hx))

theorem takeWhile_append_stop {p : Char → Bool} {l1 l2 : List Char} {c : Char}
    (h1 : ∀ x ∈ l1, p x = true) (hc : p c = false) :
    (l1 ++ c :: l2).takeWhile p = l1 := by
  induction l1 with
  | nil => simp [List.takeWhile_cons, hc]
  | cons a rest ih =>
    rw [List.cons_append, List.takeWhile_cons, if_pos (h1 a (List.mem_cons_self a rest))]
    rw [ih (fun x hx => h1 x (List.mem_cons_of_mem a hx))]

theorem dropWhile_append_stop {p : Char → Bool} {l1 l2 : List Char} {c : Char}
    (h1 : ∀ x ∈ l1, p x = true) (hc : p c = false) :
    (l1 ++ c :: l2).dropWhile p = c :: l2 := by
  induction l1 with
  | nil => simp [List.dropWhile_cons, hc]
  | cons a rest ih =>
    rw [List.cons_append, List.dropWhile_cons, if_pos (h1 a (List.mem_cons_self a rest))]
    exact ih (fun x hx => h1 x (List.mem_cons_of_mem a hx))

theorem ne_of_isDigitChar {c x : Char} (h : isDigitChar c = true)
    (hx : isDigitChar x = false) : c ≠ x := by
  intro he; rw [he, hx] at h; exact Bool.false_ne_true h

theorem natCharsZ_all_digits (n : Nat) : (natCharsZ n).all isDigitChar = true := by
  by_cases h : n = 0
  · subst h; decide
  · rw [natCharsZ, if_neg h]; exact natChars_all_digits n

theorem natCharsZ_ne_nil (n : Nat) : natCharsZ n ≠ [] := by
  by_cases h : n = 0
  · subst h; decide
  · rw [natCharsZ, if_neg h, natChars]
    simp only [ne_eq, List.reverse_eq_nil_iff, List.map_eq_nil_iff]
    exact Nat.digits_ne_nil_iff_ne_zero.mpr h

theorem stripPlus_natCharsZ (n : Nat) : stripPlus (natCharsZ n) = natCharsZ n := by
  have hall := natCharsZ_all_digits n
  cases hcs : natCharsZ n with
  | nil => rfl
  | cons c rest =>
    rw [stripPlus]
    rw [hcs] at hall
    simp only [List.all_cons, Bool.and_eq_true] at hall
    rw [if_neg (ne_of_isDigitChar hall.1 (by decide))]

theorem parseUintChars?_natCharsZ {bound v : Nat} (hv : v < bound) :
    parseUintChars? bound (natCharsZ v) = some v := by
  rw [parseUintChars?, stripPlus_natCharsZ,
    parseNatDigits?_eq_natOfDigitChars (natCharsZ_ne_nil v) (natCharsZ_all_digits v),
    natOfDigitChars_natCharsZ]
  exact if_pos hv

theorem parseU32?_natToString {v : Nat} (hv : v < 2 ^ 32) :
    parseU32? (natToString v) = some v := parseUintChars?_natCharsZ hv

theorem parseU16?_natToString {v : Nat} (hv : v < 2 ^ 16) :
    parseU16? (natToString v) = some v := parseUintChars?_natCharsZ hv

theorem parseU8?_natToString {v : Nat} (hv : v < 2 ^ 8) :
    parseU8? (natToString v) = some v := parseUintChars?_natCharsZ hv

theorem decimalDen_dvd_pow {q : Rat} (h : DecimalDen q) : q.den ∣ 10 ^ q.den := by
  obtain ⟨a, b, hab⟩ := h
  have hpos : 0 < q.den := q.den_pos
  have ha : a ≤ q.den := by
    have h2 : 2 ^ a ≤ q.den := Nat.le_of_dvd hpos ⟨5 ^ b, hab⟩
    have := Nat.lt_two_pow a
    omega
  have hb : b ≤ q.den := by
    have h5 : 5 ^ b ≤ q.den := Nat.le_of_dvd hpos ⟨2 ^ a, by rw [hab]; ring⟩
    have h25 : b < 5 ^ b := Nat.lt_pow_self (by norm_num) b
    omega
  calc q.den = 2 ^ a * 5 ^ b := hab
    _ ∣ 2 ^ q.den * 5 ^ q.den := mul_dvd_mul (pow_dvd_pow 2 ha) (pow_dvd_pow 5 hb)
    _ = 10 ^ q.den := by rw [← Nat.mul_pow]

theorem mem_body_not_e {ip fp k : Nat} {c : Char}
    (hc : c ∈ natCharsZ ip ++ '.' :: fracChars fp k) :
    (!(c == 'e' || c == 'E')) = true := by
  have hdig : isDigitChar c = true ∨ c = '.' := by
    rcases List.mem_append.mp hc with h | h
    · exact Or.inl (List.all_eq_true.mp (natCharsZ_all_digits ip) c h)
    · rcases List.mem_cons.mp h with h | h
      · exact Or.inr h
      · exact Or.inl (List.all_eq_true.mp (fracChars_all_digits fp k) c h)
  rcases hdig with h | rfl
  · have h1 : c ≠ 'e' := ne_of_isDigitChar h (by decide)
    have h2 : c ≠ 'E' := ne_of_isDigitChar h (by decide)
    simp [h1, h2]
  · decide

theorem parseMantissa?_body {ip fp k : Nat} (hfp : fp < 10 ^ k) :
    parseMantissa? (natCharsZ ip ++ '.' :: fracChars fp k) = some (ip, fp, k) := by
  have hdigs := List.all_eq_true.mp (natCharsZ_all_digits ip)
  have htake : (natCharsZ ip ++ '.' :: fracChars fp k).takeWhile isDigitChar
      = natCharsZ ip := takeWhile_append_stop hdigs (by decide)
  have hdrop : (natCharsZ ip ++ '.' :: fracChars fp k).dropWhile isDigitChar
      = '.' :: fracChars fp k := dropWhile_append_stop hdigs (by decide)
  simp only [parseMantissa?, htake, hdrop]
  rw [if_pos (by trivial), if_pos (fracChars_all_digits fp k),
    if_neg (fun hcon => natCharsZ_ne_nil ip hcon.1),
    natOfDigitChars_natCharsZ, natOfDigitChars_fracChars, fracChars_length hfp]

theorem takeWhile_notE_body (ip fp k : Nat) :
    (natCharsZ ip ++ '.' :: fracChars fp k).takeWhile (fun c => !(c == 'e' || c == 'E'))
      = natCharsZ ip ++ '.' :: fracChars fp k :=
  takeWhile_all (fun _ hc => mem_body_not_e hc)

theorem dropWhile_notE_body (ip fp k : Nat) :
    (natCharsZ ip ++ '.' :: fracChars fp k).dropWhile (fun c => !(c == 'e' || c == 'E'))
      = [] :=
  dropWhile_all (fun _ hc => mem_body_not_e hc)

theorem parseF32chars?_shape_neg {ip fp k : Nat} (hfp : fp < 10 ^ k) :
    parseF32chars? ('-' :: (natCharsZ ip ++ '.' :: fracChars fp k))
      = some (mkRatDec (-1) ip fp k) := by
  have hsign : stripSignF ('-' :: (natCharsZ ip ++ '.' :: fracChars fp k))
      = (-1, natCharsZ ip ++ '.' :: fracChars fp k) := by
    simp [stripSignF]
  simp only [parseF32chars?, hsign, takeWhile_notE_body, dropWhile_notE_body,
    parseMantissa?_body hfp]

theorem parseF32chars?_shape_pos {ip fp k : Nat} (hfp : fp < 10 ^ k) :
    parseF32chars? (natCharsZ ip ++ '.' :: fracChars fp k)
      = some (mkRatDec 1 ip fp k) := by
  have hsign : stripSignF (natCharsZ ip ++ '.' :: fracChars fp k)
      = (1, natCharsZ ip ++ '.' :: fracChars fp k) := by
    cases hcs : natCharsZ ip with
    | nil => exact absurd hcs (natCharsZ_ne_nil ip)
    | cons c t =>
      have hcd : isDigitChar c = true := by
        have := List.all_eq_true.mp (natCharsZ_all_digits ip) c
        rw [hcs] at this
        exact this (List.mem_cons_self c t)
      have h1 : c ≠ '-' := ne_of_isDigitChar hcd (by decide)
      have h2 : c ≠ '+' := ne_of_isDigitChar hcd (by decide)
      simp [stripSignF, h1, h2]
  simp only [parseF32chars?, hsign, takeWhile_notE_body, dropWhile_notE_body,
    parseMantissa?_body hfp]

theorem parseF32chars?_fmtF32chars {q : Rat} (h : DecimalDen q) :
    parseF32chars? (fmtF32chars q) = some q := by
  have hdvd := decimalDen_dvd_pow h
  have hscale : q.den * (10 ^ q.den / q.den) = 10 ^ q.den := Nat.mul_div_cancel' hdvd
  have h10 : (0 : Nat) < 10 ^ q.den := pow_pos (by norm_num) q.den
  have hscale0 : 10 ^ q.den / q.den ≠ 0 := by
    intro h0; rw [h0, mul_zero] at hscale; omega
  have hfp : (q.num * ((10 ^ q.den / q.den : Nat) : Int)).natAbs % 10 ^ q.den
      < 10 ^ q.den := Nat.mod_lt _ h10
  have hval : ∀ sgn : Int,
      sgn * (q.num * ((10 ^ q.den / q.den : Nat) : Int)).natAbs
        = q.num * ((10 ^ q.den / q.den : Nat) : Int) →
      mkRatDec sgn
        ((q.num * ((10 ^ q.den / q.den : Nat) : Int)).natAbs / 10 ^ q.den)
        ((q.num * ((10 ^ q.den / q.den : Nat) : Int)).natAbs % 10 ^ q.den)
        q.den = q := by
    intro sgn hsgn
    unfold mkRatDec
    have hdm : ((q.num * ((10 ^ q.den / q.den : Nat) : Int)).natAbs / 10 ^ q.den)
        * 10 ^ q.den
        + (q.num * ((10 ^ q.den / q.den : Nat) : Int)).natAbs % 10 ^ q.den
        = (q.num * ((10 ^ q.den / q.den : Nat) : Int)).natAbs := by
      rw [Nat.mul_comm]
      exact Nat.div_add_mod _ _
    have h1 : (((q.num * ((10 ^ q.den / q.den : Nat) : Int)).natAbs / 10 ^ q.den : Nat) : Int)
        * (10 : Int) ^ q.den
        + (((q.num * ((10 ^ q.den / q.den : Nat) : Int)).natAbs % 10 ^ q.den : Nat) : Int)
        = ((q.num * ((10 ^ q.den / q.den : Nat) : Int)).natAbs : Int) := by
      exact_mod_cast hdm
    rw [h1, hsgn, Int.cast_mul, Int.cast_natCast]
    have hden : ((10 : Rat) ^ q.den) = (q.den : Rat) * ((10 ^ q.den / q.den : Nat) : Rat) := by
      rw [← Nat.cast_mul, hscale, Nat.cast_pow]
      norm_num
    rw [hden, mul_div_mul_right _ _
      (show ((10 ^ q.den / q.den : Nat) : Rat) ≠ 0 by exact_mod_cast hscale0)]
    exact Rat.num_div_den q
  by_cases hneg : q.num < 0
  · have hm : q.num * ((10 ^ q.den / q.den : Nat) : Int) < 0 :=
      mul_neg_of_neg_of_pos hneg (by exact_mod_cast Nat.pos_of_ne_zero hscale0)
    have hshape : fmtF32chars q
        = '-' :: (natCharsZ ((q.num * ((10 ^ q.den / q.den : Nat) : Int)).natAbs / 10 ^ q.den)
          ++ '.' :: fracChars
            ((q.num * ((10 ^ q.den / q.den : Nat) : Int)).natAbs % 10 ^ q.den) q.den) := by
      simp only [fmtF32chars, if_pos hneg]
      rfl
    rw [hshape, parseF32chars?_shape_neg hfp, hval (-1) (by omega)]
  · have hm : 0 ≤ q.num * ((10 ^ q.den / q.den : Nat) : Int) :=
      mul_nonneg (not_lt.mp hneg) (by positivity)
    have hshape : fmtF32chars q
        = natCharsZ ((q.num * ((10 ^ q.den / q.den : Nat) : Int)).natAbs / 10 ^ q.den)
          ++ '.' :: fracChars
            ((q.num * ((10 ^ q.den / q.den : Nat) : Int)).natAbs % 10 ^ q.den) q.den := by
      simp only [fmtF32chars, if_neg hneg]
      rfl
    rw [hshape, parseF32chars?_shape_pos hfp, hval 1 (by omega)]

theorem parseF32?_fmtF32 {q : Rat} (h : DecimalDen q) :
    parseF32? (fmtF32 q) = some q :=
  parseF32chars?_fmtF32chars h

theorem getField?_nil (t : String) : getField? [] t = none := rfl

theorem getField?_cons_self (t s : String) (l : List (String × String)) :
    getField? ((t, s) :: l) t = some s := by
  simp [getField?, List.find?_cons]

theorem getField?_cons_ne {t u s : String} (l : List (String × String)) (h : u ≠ t) :
    getField? ((u, s) :: l) t = getField? l t := by
  simp [getField?, List.find?_cons, h]

theorem getField?_append (l1 l2 : List (String × String)) (t : String) :
    getField? (l1 ++ l2) t = (getField? l1 t).or (getField? l2 t) := by
  unfold getField?
  rw [List.find?_append]
  cases List.find? (fun f => f.1 = t) l1 <;> cases List.find? (fun f => f.1 = t) l2 <;> rfl

theorem getField?_optField_self (t : String) (v : Option String) :
    getField? (optField t v) t = v := by
  cases v <;> simp [optField, getField?_nil, getField?_cons_self]

theorem getField?_optField_ne {t u : String} (v : Option String) (h : u ≠ t) :
    getField? (optField u v) t = none := by
  cases v <;> simp [optField, getField?_nil, getField?_cons_ne _ h]

theorem getField?_toDoc_Title (c : ComicInfo) :
    getField? (toDoc c) "Title" = some c.title := by
  simp [toDoc, getField?_append, getField?_optField_self, getField?_optField_ne,
    getField?_cons_self, getField?_cons_ne, getField?_nil]

theorem getField?_toDoc_Series (c : ComicInfo) :
    getField? (toDoc c) "Series" = some c.series := by
  simp [toDoc, getField?_append, getField?_optField_self, getField?_optField_ne,
    getField?_cons_self, getField?_cons_ne, getField?_nil]

theorem getField?_toDoc_Number (c : ComicInfo) :
    getField? (toDoc c) "Number" = c.number.map fmtF32 := by
  simp [toDoc, getField?_append, getField?_optField_self, getField?_optField_ne,
    getField?_cons_self, getField?_cons_ne, getField?_nil]

theorem getField?_toDoc_Volume (c : ComicInfo) :
    getField? (toDoc c) "Volume" = c.volume.map natToString := by
  simp [toDoc, getField?_append, getField?_optField_self, getField?_optField_ne,
    getField?_cons_self, getField?_cons_ne, getField?_nil]

theorem getField?_toDoc_Summary (c : ComicInfo) :
    getField? (toDoc c) "Summary" = c.summary := by
  simp [toDoc, getField?_append, getField?_optField_self, getField?_optField_ne,
    getField?_cons_self, getField?_cons_ne, getField?_nil]

theorem getField?_toDoc_Year (c : ComicInfo) :
    getField? (toDoc c) "Year" = c.year.map natToString := by
  simp [toDoc, getField?_append, getField?_optField_self, getField?_optField_ne,
    getField?_cons_self, getField?_cons_ne, getField?_nil]

theorem getField?_toDoc_Month (c : ComicInfo) :
    getField? (toDoc c) "Month" = c.month.map natToString := by
  simp [toDoc, getField?_append, getField?_optField_self, getField?_optField_ne,
    getField?_cons_self, getField?_cons_ne, getField?_nil]

theorem getField?_toDoc_Day (c : ComicInfo) :
    getField? (toDoc c) "Day" = c.day.map natToString := by
  simp [toDoc, getField?_append, getField?_optField_self, getField?_optField_ne,
    getField?_cons_self, getField?_cons_ne, getField?_nil]

theorem getField?_toDoc_Writer (c : ComicInfo) :
    getField? (toDoc c) "Writer" = c.writer := by
  simp [toDoc, getField?_append, getField?_optField_self, getField?_optField_ne,
    getField?_cons_self, getField?_cons_ne, getField?_nil]

theorem getField?_toDoc_Penciller (c : ComicInfo) :
    getField? (toDoc c) "Penciller" = c.penciller := by
  simp [toDoc, getField?_append, getField?_optField_self, getField?_optField_ne,
    getField?_cons_self, getField?_cons_ne, getField?_nil]

theorem getField?_toDoc_Translator (c : ComicInfo) :
    getField? (toDoc c) "Translator" = c.translator := by
  simp [toDoc, getField?_append, getField?_optField_self, getField?_optField_ne,
    getField?_cons_self, getField?_cons_ne, getField?_nil]

theorem getField?_toDoc_Publisher (c : ComicInfo) :
    getField? (toDoc c) "Publisher" = c.publisher := by
  simp [toDoc, getField?_append, getField?_optField_self, getField?_optField_ne,
    getField?_cons_self, getField?_cons_ne, getField?_nil]

theorem getField?_toDoc_Genre (c : ComicInfo) :
    getField? (toDoc c) "Genre" = c.genre := by
  simp [toDoc, getField?_append, getField?_optField_self, getField?_optField_ne,
    getField?_cons_self, getField?_cons_ne, getField?_nil]

theorem getField?_toDoc_Tags (c : ComicInfo) :
    getField? (toDoc c) "Tags" = c.tags := by
  simp [toDoc, getField?_append, getField?_optField_self, getField?_optField_ne,
    getField?_cons_self, getField?_cons_ne, getField?_nil]

theorem getField?_toDoc_Web (c : ComicInfo) :
    getField? (toDoc c) "Web" = c.web := by
  simp [toDoc, getField?_append, getField?_optField_self, getField?_optField_ne,
    getField?_cons_self, getField?_cons_ne, getField?_nil]

theorem getField?_toDoc_PageCount (c : ComicInfo) :
    getField? (toDoc c) "PageCount" = c.pageCount.map natToString := by
  simp [toDoc, getField?_append, getField?_optField_self, getField?_optField_ne,
    getField?_cons_self, getField?_cons_ne, getField?_nil]

theorem getField?_toDoc_LanguageISO (c : ComicInfo) :
    getField? (toDoc c) "LanguageISO" = c.languageIso := by
  simp [toDoc, getField?_append, getField?_optField_self, getField?_optField_ne,
    getField?_cons_self, getField?_cons_ne, getField?_nil]

theorem getField?_toDoc_Manga (c : ComicInfo) :
    getField? (toDoc c) "Manga" = some (mangaSerName c.manga) := by
  simp [toDoc, getField?_append, getField?_optField_self, getField?_optField_ne,
    getField?_cons_self, getField?_cons_ne, getField?_nil]

theorem getField?_toDoc_AgeRating (c : ComicInfo) :
    getField? (toDoc c) "AgeRating" = some (ageRatingSerName c.ageRating) := by
  simp [toDoc, getField?_append, getField?_optField_self, getField?_optField_ne,
    getField?_cons_self, getField?_cons_ne, getField?_nil]

theorem mangaFromString_display (m : ComicInfoManga) :
    mangaFromString (mangaDisplay m) = m := by
  cases m <;> decide

theorem ageRatingFromString_display (a : ComicInfoAgeRating) :
    ageRatingFromString (ageRatingDisplay a) = a := by
  cases a <;> decide

theorem mangaFromString_serName (m : ComicInfoManga) :
    mangaFromString (mangaSerName m) = m := by
  cases m <;> decide

theorem ageRatingFromString_serName (a : ComicInfoAgeRating) :
    ageRatingFromString (ageRatingSerName a)
      = (match a with
         | .Mature17Plus => .Unknown
         | .AdultsOnly18Plus => .Unknown
         | x => x) := by
  cases a <;> decide

theorem optNum_fmt {α : Type} {parse : String → Option α} {fmt : α → String}
    {fields : List (String × String)} {tag : String} {v : Option α}
    (hf : getField? fields tag = v.map fmt)
    (hp : ∀ x ∈ v, parse (fmt x) = some x) :
    optNum parse fields tag = .ok v := by
  rw [optNum, hf]
  cases v with
  | none => rfl
  | some x => simp [hp x rfl]

theorem comicFromStr_toDoc {c : ComicInfo} {cm : List String} (h : WFComicInfo c) :
    comicFromStr (.doc cm (toDoc c))
      = .ok { c with ageRating := ageRatingFromString (ageRatingSerName c.ageRating) } := by
  obtain ⟨h1, h2, h3, h4, h5, h6⟩ := h
  have e1 : reqStr (toDoc c) "Title" = .ok c.title := by
    rw [reqStr, getField?_toDoc_Title]
  have e2 : reqStr (toDoc c) "Series" = .ok c.series := by
    rw [reqStr, getField?_toDoc_Series]
  have e3 : optNum parseF32? (toDoc c) "Number" = .ok c.number :=
    optNum_fmt (getField?_toDoc_Number c) (fun q hq => parseF32?_fmtF32 (h1 q hq))
  have e4 : optNum parseU32? (toDoc c) "Volume" = .ok c.volume :=
    optNum_fmt (getField?_toDoc_Volume c) (fun v hv => parseU32?_natToString (h2 v hv))
  have e5 : optNum parseU16? (toDoc c) "Year" = .ok c.year :=
    optNum_fmt (getField?_toDoc_Year c) (fun v hv => parseU16?_natToString (h3 v hv))
  have e6 : optNum parseU16? (toDoc c) "Month" = .ok c.month :=
    optNum_fmt (getField?_toDoc_Month c) (fun v hv => parseU16?_natToString (h4 v hv))
  have e7 : optNum parseU8? (toDoc c) "Day" = .ok c.day :=
    optNum_fmt (getField?_toDoc_Day c) (fun v hv => parseU8?_natToString (h5 v hv))
  have e8 : optNum parseU32? (toDoc c) "PageCount" = .ok c.pageCount :=
    optNum_fmt (getField?_toDoc_PageCount c) (fun v hv => parseU32?_natToString (h6 v hv))
  simp only [comicFromStr, e1, e2, e3, e4, e5, e6, e7, e8,
    getField?_toDoc_Summary, getField?_toDoc_Writer, getField?_toDoc_Penciller,
    getField?_toDoc_Translator, getField?_toDoc_Publisher, getField?_toDoc_Genre,
    getField?_toDoc_Tags, getField?_toDoc_Web, getField?_toDoc_LanguageISO,
    getField?_toDoc_Manga, getField?_toDoc_AgeRating, mangaFromString_serName]

theorem comicFromStrOrDefault_toDoc {c : ComicInfo} {cm : List String}
    (h : WFComicInfo c) :
    comicFromStrOrDefault (.doc cm (toDoc c))
      = { c with ageRating := ageRatingFromString (ageRatingSerName c.ageRating) } := by
  rw [comicFromStrOrDefault, comicFromStr_toDoc h]

theorem scanTokensGo_fuel :
    ∀ (n m : Nat) (ts : List (List Char)) (st : ScanState), ts.length ≤ n →
      ts.length ≤ m → scanTokensGo n ts st = scanTokensGo m ts st := by
  intro n
  induction n with
  | zero =>
    intro m ts st hn _
    cases ts with
    | nil => cases m <;> rfl
    | cons tok rest => simp at hn
  | succ n ih =>
    intro m ts st hn hm
    cases ts with
    | nil => cases m <;> rfl
    | cons tok rest =>
      cases m with
      | zero => simp at hm
      | succ m =>
        show scanTokensGo n _ _ = scanTokensGo m _ _
        have hd := List.length_drop (scanStep tok rest st).1 rest
        simp only [List.length_cons, Nat.add_le_add_iff_right] at hn hm
        exact ih m _ _ (by omega) (by omega)

theorem scanTokens_nil (st : ScanState) : scanTokens [] st = st := rfl

theorem scanTokens_cons (tok : List Char) (rest : List (List Char))
    (st : ScanState) :
    scanTokens (tok :: rest) st
      = scanTokens (rest.drop (scanStep tok rest st).1) (scanStep tok rest st).2 := by
  show scanTokensGo rest.length _ _ = scanTokensGo (rest.drop (scanStep tok rest st).1).length _ _
  have hd := List.length_drop (scanStep tok rest st).1 rest
  exact scanTokensGo_fuel rest.length _ _ _ (by omega) (by omega)

theorem scanStep_chapter_some {st : ScanState} {c : Rat}
    (h : st.chapter = some c) (tok : List Char) (rest : List (List Char)) :
    (scanStep tok rest st).2.chapter = some c := by
  unfold scanStep
  split
  · split
    · exact h
    · split
      · split <;> exact h
      · exact h
  · split
    · exfalso
      rename_i hcond
      rw [hcond.1] at h
      exact Option.noConfusion h
    · split
      · split
        · exfalso
          rename_i hnone
          rw [hnone] at h
          exact Option.noConfusion h
        · exact h
      · exact h

theorem scanStep_of_chapter_some {st : ScanState} {c : Rat}
    (h : st.chapter = some c) (tok : List Char) (rest : List (List Char))
    (hnv : isVolToken tok = false) :
    scanStep tok rest st = (0, { st with leftovers := st.leftovers ++ [tok] }) := by
  unfold scanStep
  rw [if_neg (by simp [hnv]), if_neg (by simp [h])]
  cases hp : parseF32chars? tok with
  | some n => dsimp only; rw [if_neg (by simp [h])]
  | none => rfl

theorem scanTokens_cons_of_chapter_some {st : ScanState} {c : Rat}
    (h : st.chapter = some c) (tok : List Char) (rest : List (List Char))
    (hnv : isVolToken tok = false) :
    scanTokens (tok :: rest) st
      = scanTokens rest { st with leftovers := st.leftovers ++ [tok] } := by
  rw [scanTokens_cons, scanStep_of_chapter_some h tok rest hnv]
  rfl

theorem scanTokens_chapter_of_some_aux (n : Nat) :
    ∀ (ts : List (List Char)) (st : ScanState) (c : Rat), ts.length ≤ n →
      st.chapter = some c → (scanTokens ts st).chapter = some c := by
  induction n with
  | zero =>
    intro ts st c hlen h
    cases ts with
    | nil => rw [scanTokens_nil]; exact h
    | cons tok rest => simp at hlen
  | succ n ih =>
    intro ts st c hlen h
    cases ts with
    | nil => rw [scanTokens_nil]; exact h
    | cons tok rest =>
      simp only [List.length_cons, Nat.add_le_add_iff_right] at hlen
      rw [scanTokens_cons]
      refine ih _ _ c ?_ (scanStep_chapter_some h tok rest)
      have hd := List.length_drop (scanStep tok rest st).1 rest
      omega

theorem scanTokens_chapter_of_some {st : ScanState} {c : Rat}
    (h : st.chapter = some c) (ts : List (List Char)) :
    (scanTokens ts st).chapter = some c :=
  scanTokens_chapter_of_some_aux ts.length ts st c (Nat.le_refl _) h

theorem parseF32chars?_nil : parseF32chars? [] = none := rfl

theorem scanStep_sets_embedded {st : ScanState} (tok : List Char)
    (rest : List (List Char)) {n : Rat}
    (hnone : st.chapter = none) (hv : isVolToken tok = false)
    (hc : isChapterTok tok = true)
    (hp : parseF32chars? (tok.dropWhile (fun c => c.isAlpha || c = '.' || c = '#'))
      = some n) :
    scanStep tok rest st = (0, { st with chapter := some n }) := by
  unfold scanStep
  rw [if_neg (by simp [hv]), if_pos ⟨hnone, hc⟩]
  cases hstrip : tok.dropWhile (fun c => c.isAlpha || c = '.' || c = '#') with
  | nil =>
    rw [hstrip, parseF32chars?_nil] at hp
    exact Option.noConfusion hp
  | cons a as =>
    rw [hstrip] at hp
    dsimp only
    rw [hp]

theorem scanStep_sets_next {st : ScanState} (tok next : List Char)
    (rest2 : List (List Char)) {n : Rat}
    (hnone : st.chapter = none) (hv : isVolToken tok = false)
    (hc : isChapterTok tok = true)
    (hstrip : tok.dropWhile (fun c => c.isAlpha || c = '.' || c = '#') = [])
    (hp : parseF32chars? next = some n) :
    scanStep tok (next :: rest2) st = (1, { st with chapter := some n }) := by
  unfold scanStep
  rw [if_neg (by simp [hv]), if_pos ⟨hnone, hc⟩, hstrip]
  dsimp only
  rw [hp]

theorem scanStep_sets_bare {st : ScanState} (tok : List Char)
    (rest : List (List Char)) {n : Rat}
    (hnone : st.chapter = none) (hv : isVolToken tok = false)
    (hc : isChapterTok tok = false)
    (hp : parseF32chars? tok = some n) :
    scanStep tok rest st
      = (0, { st with chapter := some n, leftovers := st.leftovers ++ [tok] }) := by
  unfold scanStep
  rw [if_neg (by simp [hv]), if_neg (fun hco => by simp [hc] at hco), hp]
  dsimp only
  rw [if_pos hnone]

theorem runBatch_fst (fs : Fs) (cs : List Chapter) (info : ComicInfo)
    (len i : Nat) : (runBatch fs cs info len i).1 = applyAll fs cs info := by
  induction cs generalizing fs i with
  | nil => rfl
  | cons c rest ih =>
    simp only [runBatch, processChapterInfo, applyAll]
    exact ih _ _

theorem runBatch_results (fs : Fs) (cs : List Chapter) (info : ComicInfo)
    (len i : Nat) : (runBatch fs cs info len i).2.2 = resultsAll fs cs info := by
  induction cs generalizing fs i with
  | nil => rfl
  | cons c rest ih =>
    simp only [runBatch, processChapterInfo, resultsAll]
    rw [ih]

theorem runBatch_no_summary (fs : Fs) (cs : List Chapter) (info : ComicInfo)
    (len i n : Nat) : StatusMsg.summary n ∉ (runBatch fs cs info len i).2.1 := by
  induction cs generalizing fs i with
  | nil => simp [runBatch]
  | cons c rest ih =>
    simp only [runBatch, processChapterInfo, List.cons_append, List.nil_append,
      List.mem_cons]
    rintro (h | h)
    · exact StatusMsg.noConfusion h
    · exact ih _ _ h

theorem writeComicInfo_ok {e : ZEntry} {info : ComicInfo} {upd : ComicInfoUpdater}
    {ne : ZEntry} (h : writeComicInfo e info upd = .ok ne) :
    ne.name = "ComicInfo.xml" ∧ ne.compression = e.compression ∧
      ne.unixMode = e.unixMode := by
  unfold writeComicInfo at h
  cases hr : readDoc e.data with
  | error er => rw [hr] at h; exact Except.noConfusion h
  | ok d =>
    rw [hr] at h
    simp only [comicToString, addXmlComment] at h
    cases h
    exact ⟨rfl, rfl, rfl⟩

theorem buildEntries_ok {entries : List ZEntry} {info : ComicInfo}
    {upd : ComicInfoUpdater} {out : List ZEntry} {found : Bool}
    (h : buildEntries entries info upd = .ok (out, found)) :
    List.Forall₂ PreservesEntry entries out ∧
      (found = true ↔ ∃ a ∈ entries, a.name = "ComicInfo.xml") := by
  induction entries generalizing out found with
  | nil =>
    rw [buildEntries] at h
    cases h
    exact ⟨List.Forall₂.nil, by simp⟩
  | cons e rest ih =>
    rw [buildEntries] at h
    by_cases he : e.name = "ComicInfo.xml"
    · rw [if_pos he] at h
      cases hw : writeComicInfo e info upd with
      | error er => rw [hw] at h; exact Except.noConfusion h
      | ok ne =>
        rw [hw] at h
        cases hb : buildEntries rest info upd with
        | error er => rw [hb] at h; exact Except.noConfusion h
        | ok p =>
          obtain ⟨out1, f1⟩ := p
          rw [hb] at h
          cases h
          obtain ⟨hfa, _⟩ := ih hb
          obtain ⟨hn, hc, hu⟩ := writeComicInfo_ok hw
          refine ⟨List.Forall₂.cons ⟨by rw [hn, he], hc, hu, fun hne => absurd he hne⟩ hfa, ?_⟩
          simp [he]
    · rw [if_neg he] at h
      cases hb : buildEntries rest info upd with
      | error er => rw [hb] at h; exact Except.noConfusion h
      | ok p =>
        obtain ⟨out1, f1⟩ := p
        rw [hb] at h
        cases h
        obtain ⟨hfa, hiff⟩ := ih hb
        refine ⟨List.Forall₂.cons ⟨rfl, rfl, rfl, fun _ => rfl⟩ hfa, ?_⟩
        simp only [List.mem_cons]
        constructor
        · intro hf
          obtain ⟨a, ha, han⟩ := hiff.mp hf
          exact ⟨a, Or.inr ha, han⟩
        · rintro ⟨a, ha | ha, han⟩
          · exact absurd (ha ▸ han) he
          · exact hiff.mpr ⟨a, ha, han⟩

theorem buildEntries_error_binary {entries : List ZEntry} {info : ComicInfo}
    {upd : ComicInfoUpdater}
    (hall : ∀ e ∈ entries, e.name = "ComicInfo.xml" → ∃ raw, e.data = .binary raw)
    (hex : ∃ e ∈ entries, e.name = "ComicInfo.xml") :
    ∃ er, buildEntries entries info upd = .error er := by
  induction entries with
  | nil => simp at hex
  | cons e rest ih =>
    rw [buildEntries]
    by_cases he : e.name = "ComicInfo.xml"
    · rw [if_pos he]
      obtain ⟨raw, hraw⟩ := hall e (List.mem_cons_self e rest) he
      have hw : writeComicInfo e info upd = .error "stream did not contain valid UTF-8" := by
        unfold writeComicInfo
        rw [hraw]
        rfl
      rw [hw]
      exact ⟨_, rfl⟩
    · rw [if_neg he]
      have hex2 : ∃ a ∈ rest, a.name = "ComicInfo.xml" := by
        obtain ⟨a, ha, han⟩ := hex
        rcases List.mem_cons.mp ha with rfl | ha2
        · exact absurd han he
        · exact ⟨a, ha2, han⟩
      obtain ⟨er, hb⟩ := ih (fun x hx => hall x (List.mem_cons_of_mem e hx)) hex2
      rw [hb]
      exact ⟨er, rfl⟩

theorem fsRead_fsWrite (fs : Fs) (path : String) (d : FileData) :
    fsRead (fsWrite fs path d) path = some d := by
  induction fs with
  | nil => simp [fsWrite, fsRead, List.find?_cons]
  | cons pr rest ih =>
    obtain ⟨p, v⟩ := pr
    rw [fsWrite]
    by_cases hp : p = path
    · rw [if_pos hp]
      simp [fsRead, List.find?_cons]
    · rw [if_neg hp]
      show fsRead (⟨p, v⟩ :: fsWrite rest path d : List (String × FileData)) path = some d
      unfold fsRead at ih ⊢
      simp only [List.find?_cons, decide_eq_false hp]
      exact ih

/-- C1: for every archive path, candidate record and merge policy, the
rewrite (`modify_zip`) mutates the filesystem only after the whole new
archive is built in memory: whenever the operation returns an error —
unreadable source file, corrupt archive structure, or a failure while
producing the final record's entry — the filesystem (hence the file at the
path) is exactly what it was before the call. -/
theorem C1_modifyZip_error_leaves_fs_unchanged (fs : Fs) (path : String)
    (info : ComicInfo) (upd : ComicInfoUpdater) (e : String)
    (h : (modifyZip fs path info upd).2 = .error e) :
    (modifyZip fs path info upd).1 = fs := by
  unfold modifyZip at h ⊢
  cases hfd : fsRead fs path with
  | none => rfl
  | some fd =>
    rw [hfd] at h
    dsimp only at h ⊢
    cases hz : zipArchiveNew fd with
    | error er => rfl
    | ok entries =>
      rw [hz] at h
      dsimp only at h ⊢
      cases hb : buildEntries entries info upd with
      | error er => rfl
      | ok p =>
        obtain ⟨out, found⟩ := p
        rw [hb] at h
        dsimp only at h ⊢
        cases found with
        | true => simp at h
        | false =>
          simp only [Bool.false_eq_true, if_false] at h ⊢
          cases han : addNewComicInfo info upd with
          | error er => rfl
          | ok ne => rw [han] at h; simp at h

/-- Witness for C10 at a concrete archive with a non-UTF-8 metadata entry. -/
theorem C1_witness :
    (modifyZip ([] : Fs) "a.cbz" ComicInfo.default replaceAllUpdater).2
        = .error "failed to read input"
    ∧ (modifyZip ([] : Fs) "a.cbz" ComicInfo.default replaceAllUpdater).1 = ([] : Fs) :=
  ⟨rfl, C1_modifyZip_error_leaves_fs_unchanged [] "a.cbz" ComicInfo.default
    replaceAllUpdater "failed to read input" rfl⟩

/-- C3: for every archive containing a `ComicInfo.xml` entry, after a
successful rewrite the output archive relates to the input entry-by-entry
in order: names, compression methods and unix permission bits are all
unchanged, and every entry not named `ComicInfo.xml` is unchanged outright
(contents included) — only the metadata entry's contents differ. -/
theorem C3_rewrite_preserves_other_entries (fs fs2 : Fs) (path : String)
    (info : ComicInfo) (upd : ComicInfoUpdater) (entries : List ZEntry)
    (hread : fsRead fs path = some (.zip entries))
    (hex : ∃ a ∈ entries, a.name = "ComicInfo.xml")
    (hok : modifyZip fs path info upd = (fs2, .ok ())) :
    ∃ out, fsRead fs2 path = some (.zip out) ∧
      List.Forall₂ PreservesEntry entries out := by
  unfold modifyZip at hok
  rw [hread] at hok
  simp only [zipArchiveNew] at hok
  cases hb : buildEntries entries info upd with
  | error er => rw [hb] at hok; simp at hok
  | ok p =>
    obtain ⟨out, found⟩ := p
    rw [hb] at hok
    obtain ⟨hfa, hiff⟩ := buildEntries_ok hb
    have hft : found = true := hiff.mpr hex
    rw [hft] at hok
    simp only [if_true] at hok
    have hfs2 : fs2 = fsWrite fs path (.zip out) := by
      have h1 := congrArg Prod.fst hok
      simp at h1
      exact h1.symm
    exact ⟨out, by rw [hfs2, fsRead_fsWrite], hfa⟩

/-- C10: an archive whose `ComicInfo.xml` entry holds bytes that are not
valid UTF-8 makes the rewrite fail (`read_to_string`'s error propagates
through `?`), leaving the filesystem untouched — a failure mode on top of
the unreadable-file and corrupt-archive cases, instead of recovering the
entry as a default record. -/
theorem C10_nonUtf8_comicinfo_aborts (fs : Fs) (path : String)
    (info : ComicInfo) (upd : ComicInfoUpdater) (entries : List ZEntry)
    (hread : fsRead fs path = some (.zip entries))
    (hex : ∃ e ∈ entries, e.name = "ComicInfo.xml")
    (hall : ∀ e ∈ entries, e.name = "ComicInfo.xml" → ∃ raw, e.data = .binary raw) :
    ∃ er, modifyZip fs path info upd = (fs, .error er) := by
  obtain ⟨er, hb⟩ := buildEntries_error_binary hall hex
  refine ⟨er, ?_⟩
  unfold modifyZip
  rw [hread]
  simp only [zipArchiveNew]
  rw [hb]

/-- C8: `derive_updater` takes title, translator, number and volume from the
candidate record and every other field from the existing record. -/
theorem C8_deriveUpdater_fields (old new : ComicInfo) :
    (deriveUpdater old new).title = new.title ∧
    (deriveUpdater old new).translator = new.translator ∧
    (deriveUpdater old new).number = new.number ∧
    (deriveUpdater old new).volume = new.volume ∧
    (deriveUpdater old new).series = old.series ∧
    (deriveUpdater old new).summary = old.summary ∧
    (deriveUpdater old new).year = old.year ∧
    (deriveUpdater old new).month = old.month ∧
    (deriveUpdater old new).day = old.day ∧
    (deriveUpdater old new).writer = old.writer ∧
    (deriveUpdater old new).penciller = old.penciller ∧
    (deriveUpdater old new).publisher = old.publisher ∧
    (deriveUpdater old new).genre = old.genre ∧
    (deriveUpdater old new).tags = old.tags ∧
    (deriveUpdater old new).web = old.web ∧
    (deriveUpdater old new).pageCount = old.pageCount ∧
    (deriveUpdater old new).languageIso = old.languageIso ∧
    (deriveUpdater old new).manga = old.manga ∧
    (deriveUpdater old new).ageRating = old.ageRating :=
  ⟨rfl, rfl, rfl, rfl, rfl, rfl, rfl, rfl, rfl, rfl, rfl, rfl, rfl, rfl, rfl,
    rfl, rfl, rfl, rfl⟩

/-- C2: `save_series_info` drives every submitted target to completion
before returning — the resulting filesystem is the one obtained by applying
every target's rewrite in order, so successes among other targets persist
(no rollback) even when some target fails — and it returns `Ok` when every
target succeeded and otherwise the first error encountered. -/
theorem C2_saveSeriesInfo_runs_all_targets (fs : Fs) (cs : List Chapter)
    (info : ComicInfo) :
    (saveSeriesInfo fs cs info).1 = applyAll fs cs info ∧
    (saveSeriesInfo fs cs info).2.2
      = (match firstError (resultsAll fs cs info) with
         | some e => .error e
         | none => .ok ()) := by
  have h1 := runBatch_fst fs cs info cs.length 0
  have h2 := runBatch_results fs cs info cs.length 0
  unfold saveSeriesInfo
  dsimp only
  rw [h2]
  cases hf : firstError (resultsAll fs cs info) <;> exact ⟨h1, rfl⟩

/-- C5 counterexample: a batch with one failing target (missing file) sends
no final summary message at all — the claim that the summary is emitted
even when targets fail is false on the code, because the summary send sits
after the `?` that propagates the first error. -/
theorem C5_counterexample :
    (saveSeriesInfo ([] : Fs) [{ path := "missing.cbz" }] ComicInfo.default).2.2
        = .error "failed to read input"
    ∧ (saveSeriesInfo ([] : Fs) [{ path := "missing.cbz" }] ComicInfo.default).2.1
        = [.processing 1 1 "missing.cbz"]
    ∧ ∀ n, StatusMsg.summary n
        ∉ (saveSeriesInfo ([] : Fs) [{ path := "missing.cbz" }] ComicInfo.default).2.1 := by
  refine ⟨rfl, rfl, ?_⟩
  intro n
  have hm : (saveSeriesInfo ([] : Fs) [{ path := "missing.cbz" }]
      ComicInfo.default).2.1 = [.processing 1 1 "missing.cbz"] := rfl
  rw [hm]
  simp

/-- C5 amended: the final summary message (with the number of targets) is
sent exactly when every target succeeded; when some target failed, the call
returns the first error and no summary message is ever sent. -/
theorem C5_amended_summary_only_on_success (fs : Fs) (cs : List Chapter)
    (info : ComicInfo) :
    ((saveSeriesInfo fs cs info).2.2 = .ok () →
      ((saveSeriesInfo fs cs info).2.1).getLast? = some (.summary cs.length)) ∧
    ((saveSeriesInfo fs cs info).2.2 ≠ .ok () →
      ∀ n, StatusMsg.summary n ∉ (saveSeriesInfo fs cs info).2.1) := by
  unfold saveSeriesInfo
  dsimp only
  cases hf : firstError (runBatch fs cs info cs.length 0).2.2 with
  | none =>
    dsimp only
    constructor
    · intro _
      exact List.getLast?_concat _
    · intro hne
      exact absurd rfl hne
  | some e0 =>
    dsimp only
    constructor
    · intro hok
      exact absurd hok (by simp)
    · intro _ n
      exact runBatch_no_summary fs cs info cs.length 0 n

theorem comicFromStr_number_none {cm : List String} {fields : List (String × String)}
    {c : ComicInfo} (hnum : getField? fields "Number" = none)
    (h : comicFromStr (.doc cm fields) = .ok c) : c.number = none := by
  unfold comicFromStr at h
  dsimp only at h
  cases h1 : reqStr fields "Title" with
  | error e => rw [h1] at h; exact Except.noConfusion h
  | ok v1 =>
    rw [h1] at h; dsimp only at h
    cases h2 : reqStr fields "Series" with
    | error e => rw [h2] at h; exact Except.noConfusion h
    | ok v2 =>
      rw [h2] at h; dsimp only at h
      rw [show optNum parseF32? fields "Number" = .ok none from by rw [optNum, hnum]] at h
      dsimp only at h
      cases h4 : optNum parseU32? fields "Volume" with
      | error e => rw [h4] at h; exact Except.noConfusion h
      | ok v4 =>
        rw [h4] at h; dsimp only at h
        cases h5 : optNum parseU16? fields "Year" with
        | error e => rw [h5] at h; exact Except.noConfusion h
        | ok v5 =>
          rw [h5] at h; dsimp only at h
          cases h6 : optNum parseU16? fields "Month" with
          | error e => rw [h6] at h; exact Except.noConfusion h
          | ok v6 =>
            rw [h6] at h; dsimp only at h
            cases h7 : optNum parseU8? fields "Day" with
            | error e => rw [h7] at h; exact Except.noConfusion h
            | ok v7 =>
              rw [h7] at h; dsimp only at h
              cases h8 : optNum parseU32? fields "PageCount" with
              | error e => rw [h8] at h; exact Except.noConfusion h
              | ok v8 =>
                rw [h8] at h; dsimp only at h
                cases h
                rfl

/-- C4 counterexample: a document whose `Title` element is present with
perfectly parsable text but whose `Number` element does not parse decodes
to the all-default record — the parsable `Title` does not survive, contrary
to the claim that only the unparsable field falls back to its default. -/
theorem C4_counterexample :
    comicFromStrOrDefault
        (.doc [] [("Title", "X"), ("Series", "S"), ("Number", "abc")])
      = ComicInfo.default
    ∧ (comicFromStrOrDefault
        (.doc [] [("Title", "X"), ("Series", "S"), ("Number", "abc")])).title
      ≠ "X" := by
  constructor
  · rfl
  · decide

/-- C4 amended: the program-level decode (`from_str(..).unwrap_or_default()`)
never raises; malformed markup recovers as the all-default record; any
document-level parse error (including one unparsable field) makes the
*entire* record fall back to the default, rather than only that field;
unrecognized enum text decodes to `Unknown`; a field whose element is
absent decodes to its default (shown for `Number`); and an archive with no
`ComicInfo.xml` entry reads back as the all-default record. -/
theorem C4_amended_decode_recovery :
    (∀ s, comicFromStrOrDefault (.malformed s) = ComicInfo.default) ∧
    (∀ cm fields e, comicFromStr (.doc cm fields) = .error e →
      comicFromStrOrDefault (.doc cm fields) = ComicInfo.default) ∧
    (∀ s, s ≠ "Yes" → s ≠ "No" → s ≠ "YesAndRightToLeft" →
      mangaFromString s = .Unknown) ∧
    (∀ s, s ≠ "Everyone" → s ≠ "Teen" → s ≠ "Mature 17+" →
      s ≠ "Adults Only 18+" → ageRatingFromString s = .Unknown) ∧
    (∀ cm fields, getField? fields "Number" = none →
      (comicFromStrOrDefault (.doc cm fields)).number = none) ∧
    (∀ fs path entries, fsRead fs path = some (.zip entries) →
      (∀ en ∈ entries, en.name ≠ "ComicInfo.xml") →
      getComicFromZip fs path = .ok ComicInfo.default) := by
  refine ⟨?_, ?_, ?_, ?_, ?_, ?_⟩
  · intro s; rfl
  · intro cm fields e h
    unfold comicFromStrOrDefault
    rw [h]
  · intro s hy hn hr
    unfold mangaFromString
    rw [if_neg hy, if_neg hn, if_neg hr]
  · intro s h1 h2 h3 h4
    unfold ageRatingFromString
    rw [if_neg h1, if_neg h2, if_neg h3, if_neg h4]
  · intro cm fields hnum
    unfold comicFromStrOrDefault
    cases hc : comicFromStr (.doc cm fields) with
    | error e => rfl
    | ok c => exact comicFromStr_number_none hnum hc
  · intro fs path entries hread hnone
    unfold getComicFromZip
    rw [hread]
    dsimp only [zipArchiveNew]
    rw [show entries.find? (fun e => e.name = "ComicInfo.xml") = none from
      List.find?_eq_none.mpr (fun x hx => by simp [hnone x hx])]

/-- C6 counterexample: the derived serializer emits the variant name
`"Mature17Plus"`, which the custom deserializer does not recognize, so a
record with age rating `Mature17Plus` decodes back with age rating
`Unknown` — the literal `"+"` form does not survive the trip, refuting the
round-trip claim for the age-rating enum. -/
theorem C6_counterexample :
    (comicFromStrOrDefault (.doc []
        (toDoc { title := "T", series := "S", ageRating := .Mature17Plus }))).ageRating
      = .Unknown
    ∧ ({ title := "T", series := "S",
          ageRating := .Mature17Plus } : ComicInfo).ageRating = .Mature17Plus
    ∧ ComicInfoAgeRating.Unknown ≠ .Mature17Plus := by
  refine ⟨rfl, rfl, ?_⟩
  decide

/-- C6 amended: for every record whose numeric fields respect their Rust
types, encoding then decoding restores every populated field — including
`Manga`, whose variant names coincide with what the deserializer expects,
and with absent optional fields decoding back to `none` — except the age
rating, which comes back as `ageRatingFromString` of the serialized variant
name: `Mature17Plus` and `AdultsOnly18Plus` decode to `Unknown` (the
serializer emits variant names while the deserializer only recognizes the
`"Mature 17+"` / `"Adults Only 18+"` spellings), and every other age-rating
value survives unchanged. -/
theorem C6_amended_roundtrip (c : ComicInfo) (h : WFComicInfo c) :
    comicFromStrOrDefault (.doc [] (toDoc c))
      = { c with ageRating := ageRatingFromString (ageRatingSerName c.ageRating) }
    ∧ ageRatingFromString (ageRatingSerName .Mature17Plus) = .Unknown
    ∧ ageRatingFromString (ageRatingSerName .AdultsOnly18Plus) = .Unknown
    ∧ ageRatingFromString (ageRatingSerName .Unknown) = .Unknown
    ∧ ageRatingFromString (ageRatingSerName .Everyone) = .Everyone
    ∧ ageRatingFromString (ageRatingSerName .Teen) = .Teen :=
  ⟨comicFromStrOrDefault_toDoc h, by decide, by decide, by decide, by decide,
    by decide⟩

/-- C7: the first chapter-like numeric token the left-to-right scan reaches
with no chapter set resolves the chapter number — a chapter-prefix token
with an embedded number sets the final chapter to that number, a bare
chapter-prefix word sets it from the following numeric token, and a bare
numeric token sets it to its own value — and once a chapter is set, no
later token ever changes it, while every later non-volume token (including
chapter-prefixed mentions and bare numbers) is appended verbatim to the
title leftovers instead of being parsed. -/
theorem C7_first_chapter_wins :
    (∀ (st : ScanState) (tok : List Char) (rest : List (List Char)),
      st.chapter = none → isVolToken tok = false → isChapterTok tok = true →
      (parseF32chars?
        (tok.dropWhile (fun c => c.isAlpha || c = '.' || c = '#'))).isSome →
      (scanTokens (tok :: rest) st).chapter
        = parseF32chars?
            (tok.dropWhile (fun c => c.isAlpha || c = '.' || c = '#'))) ∧
    (∀ (st : ScanState) (tok next : List Char) (rest2 : List (List Char)),
      st.chapter = none → isVolToken tok = false → isChapterTok tok = true →
      tok.dropWhile (fun c => c.isAlpha || c = '.' || c = '#') = [] →
      (parseF32chars? next).isSome →
      (scanTokens (tok :: next :: rest2) st).chapter = parseF32chars? next) ∧
    (∀ (st : ScanState) (tok : List Char) (rest : List (List Char)),
      st.chapter = none → isVolToken tok = false → isChapterTok tok = false →
      (parseF32chars? tok).isSome →
      (scanTokens (tok :: rest) st).chapter = parseF32chars? tok) ∧
    (∀ (st : ScanState) (c : Rat) (ts : List (List Char)),
      st.chapter = some c → (scanTokens ts st).chapter = some c) ∧
    (∀ (st : ScanState) (c : Rat) (tok : List Char) (rest : List (List Char)),
      st.chapter = some c → isVolToken tok = false →
      scanTokens (tok :: rest) st
        = scanTokens rest { st with leftovers := st.leftovers ++ [tok] }) := by
  refine ⟨?_, ?_, ?_, ?_, ?_⟩
  · intro st tok rest hnone hv hc hps
    obtain ⟨n, hp⟩ := Option.isSome_iff_exists.mp hps
    rw [hp, scanTokens_cons, scanStep_sets_embedded tok rest hnone hv hc hp]
    dsimp only
    rw [List.drop_zero]
    exact scanTokens_chapter_of_some rfl rest
  · intro st tok next rest2 hnone hv hc hstrip hps
    obtain ⟨n, hp⟩ := Option.isSome_iff_exists.mp hps
    rw [hp, scanTokens_cons, scanStep_sets_next tok next rest2 hnone hv hc hstrip hp]
    dsimp only
    exact scanTokens_chapter_of_some rfl rest2
  · intro st tok rest hnone hv hc hps
    obtain ⟨n, hp⟩ := Option.isSome_iff_exists.mp hps
    rw [hp, scanTokens_cons, scanStep_sets_bare tok rest hnone hv hc hp]
    dsimp only
    rw [List.drop_zero]
    exact scanTokens_chapter_of_some rfl rest
  · exact fun st c ts h => scanTokens_chapter_of_some h ts
  · exact fun st c tok rest h hv => scanTokens_cons_of_chapter_some h tok rest hv

/-- Witness for C7 at concrete inputs: from the initial state, `ch14`
resolves the chapter to its embedded number and a bare `47` resolves it to
its own value; and with a chapter already resolved, a later `ch14` token
goes verbatim to the title leftovers. -/
theorem C7_witness :
    (scanTokens ["ch14".data] ({} : ScanState)).chapter
      = parseF32chars?
          ("ch14".data.dropWhile (fun c => c.isAlpha || c = '.' || c = '#'))
    ∧ (scanTokens ["47".data] ({} : ScanState)).chapter = parseF32chars? "47".data
    ∧ scanTokens ["ch14".data] ({ chapter := some (407 / 5 : Rat) } : ScanState)
      = scanTokens []
          { ({ chapter := some (407 / 5 : Rat) } : ScanState) with
            leftovers := ({ chapter := some (407 / 5 : Rat) } : ScanState).leftovers
              ++ ["ch14".data] } :=
  ⟨C7_first_chapter_wins.1 {} "ch14".data [] rfl (by decide) (by decide) (by decide),
    C7_first_chapter_wins.2.2.1 {} "47".data [] rfl (by decide) (by decide)
      (by decide),
    C7_first_chapter_wins.2.2.2.2 { chapter := some (407 / 5 : Rat) } (407 / 5)
      "ch14".data [] rfl (by decide)⟩

theorem scanTokens_all_plain (ts : List (List Char)) (st : ScanState)
    (h : ∀ tok ∈ ts, isVolToken tok = false ∧ isChapterTok tok = false
      ∧ parseF32chars? tok = none) :
    scanTokens ts st = { st with leftovers := st.leftovers ++ ts } := by
  induction ts generalizing st with
  | nil => rw [scanTokens_nil]; simp
  | cons tok rest ih =>
    obtain ⟨hv, hc, hp⟩ := h tok (List.mem_cons_self tok rest)
    rw [scanTokens_cons]
    have hstep : scanStep tok rest st
        = (0, { st with leftovers := st.leftovers ++ [tok] }) := by
      unfold scanStep
      rw [if_neg (by simp [hv]), if_neg (fun hco => by simp [hc] at hco)]
      rw [hp]
    rw [hstep]
    dsimp only
    rw [List.drop_zero, ih _ (fun t ht => h t (List.mem_cons_of_mem tok ht))]
    simp [List.append_assoc]

/-- C9 counterexample: `"Foo-Bar.cbz"` has no recognizable structure (no
volume, chapter or translator tokens), yet the recovered title is
`"Foo Bar"` — the tokenizer splits on `-` and rejoins with spaces — not the
filename minus its extension (`"Foo-Bar"`) as the claim states. -/
theorem C9_counterexample :
    parseFilename "Foo-Bar.cbz" "Foo-Bar.cbz"
      = { path := "Foo-Bar.cbz", volume := none, chapter := none,
          title := some "Foo Bar", translators := [] }
    ∧ (parseFilename "Foo-Bar.cbz" "Foo-Bar.cbz").title ≠ some "Foo-Bar" := by
  constructor <;> decide

/-- C9 amended: `parse_filename` is total by construction, and on a
filename with no recognizable structure — no bracket group, no language
tag, and no token that is volume-like, chapter-like or a bare number — it
returns a descriptor with no volume, no chapter, no translators, and as
title the stem's tokens rejoined with single spaces (absent when there are
no tokens); this equals the filename minus the extension only when the
stem's only separators are single spaces. -/
theorem C9_amended_worst_case (path filename : String)
    (h1 : extractBracketGroup (trimEndCbz filename.data)
        = (trimEndCbz filename.data, []))
    (h2 : stripLangTag (trimEndCbz filename.data) = trimEndCbz filename.data)
    (h3 : ∀ tok ∈ tokenizePreservingBrackets (trimEndCbz filename.data),
      isVolToken tok = false ∧ isChapterTok tok = false
        ∧ parseF32chars? tok = none) :
    parseFilename path filename
      = { path := path, volume := none, chapter := none,
          title :=
            if tokenizePreservingBrackets (trimEndCbz filename.data) = [] then none
            else some (String.mk (List.intercalate [' ']
              (tokenizePreservingBrackets (trimEndCbz filename.data)))),
          translators := [] } := by
  unfold parseFilename
  dsimp only
  rw [h1]
  dsimp only
  rw [h2, scanTokens_all_plain _ _ h3]
  dsimp only
  rw [List.nil_append]

/-- Witness for C9 at the concrete structureless input `"Foo-Bar.cbz"`. -/
theorem C9_witness :
    parseFilename "Foo-Bar.cbz" "Foo-Bar.cbz"
      = { path := "Foo-Bar.cbz", volume := none, chapter := none,
          title :=
            if tokenizePreservingBrackets (trimEndCbz ("Foo-Bar.cbz" : String).data) = []
            then none
            else some (String.mk (List.intercalate [' ']
              (tokenizePreservingBrackets (trimEndCbz ("Foo-Bar.cbz" : String).data)))),
          translators := [] } :=
  C9_amended_worst_case "Foo-Bar.cbz" "Foo-Bar.cbz" (by decide) (by decide) (by decide)

/-- Witness for C3 at a concrete archive: both entries survive the rewrite
with their attributes, and the page entry byte-for-byte. -/
theorem C3_witness :
    ∃ out, fsRead (modifyZip sampleFs "a.cbz" ComicInfo.default replaceAllUpdater).1
        "a.cbz" = some (.zip out)
      ∧ List.Forall₂ PreservesEntry [samplePageEntry, sampleComicEntry] out :=
  C3_rewrite_preserves_other_entries sampleFs
    (modifyZip sampleFs "a.cbz" ComicInfo.default replaceAllUpdater).1 "a.cbz"
    ComicInfo.default replaceAllUpdater [samplePageEntry, sampleComicEntry] rfl
    ⟨sampleComicEntry, List.mem_cons_of_mem _ (List.mem_cons_self _ _), rfl⟩ rfl

theorem C10_witness :
    ∃ er, modifyZip sampleBadFs "bad.cbz" ComicInfo.default updateSharedUpdater
      = (sampleBadFs, .error er) :=
  C10_nonUtf8_comicinfo_aborts sampleBadFs "bad.cbz" ComicInfo.default
    updateSharedUpdater [sampleBinaryComicEntry] rfl
    ⟨sampleBinaryComicEntry, List.mem_cons_self _ _, rfl⟩
    (fun e he _ => by
      rw [List.mem_singleton.mp he]
      exact ⟨[255], rfl⟩)

/-- Witness for C5 (amended) at a concrete successful batch: the summary
message with the target count is the last message sent. -/
theorem C5_witness :
    ((saveSeriesInfo sampleFs [{ path := "a.cbz" }] ComicInfo.default).2.1).getLast?
      = some (.summary 1) :=
  (C5_amended_summary_only_on_success sampleFs [{ path := "a.cbz" }]
    ComicInfo.default).1 rfl

/-- Witness for C4 (amended) at a concrete archive with no metadata entry. -/
theorem C4_witness :
    getComicFromZip [("x.cbz", FileData.zip [samplePageEntry])] "x.cbz"
      = .ok ComicInfo.default :=
  C4_amended_decode_recovery.2.2.2.2.2 [("x.cbz", .zip [samplePageEntry])] "x.cbz"
    [samplePageEntry] rfl
    (fun en he => by
      rw [List.mem_singleton.mp he]
      decide)

/-- Witness for C6 (amended) at the fully populated sample record, whose
age rating `Mature17Plus` comes back as `Unknown`. -/
theorem C6_witness :
    comicFromStrOrDefault (.doc [] (toDoc sampleFullInfo))
      = { sampleFullInfo with
          ageRating := ageRatingFromString (ageRatingSerName sampleFullInfo.ageRating) } :=
  (C6_amended_roundtrip sampleFullInfo
    (by
      refine ⟨?_, ?_, ?_, ?_, ?_, ?_⟩ <;> intro v hv <;>
        simp only [sampleFullInfo, Option.mem_def, Option.some.injEq] at hv <;>
        subst hv
      · exact ⟨1, 0, by norm_num⟩
      · decide
      · decide
      · decide
      · decide
      · decide)).1
